import Mathlib

/-!
Verification of the tourism-database incremental-update core.

This file gives a shallow embedding of the change-detection and
change-application code of the repository:

* `ChangeDetector._compare_table` / `ChangeDetector.compare_databases`
  (`update_system/change_detector.py`), and
* `UpdateProcessor.apply_changes` together with its helpers
  `_apply_table_changes`, `_apply_operation_batch`, `_execute_insert`,
  `_execute_update`, `_execute_delete`
  (`update_system/update_processor.py`), plus the run bookkeeping of
  `ChangeTracker.complete_update_run` (`update_system/change_tracker.py`).

Python dictionaries are modelled as association lists in insertion order,
Python `None` as a first-class scalar value, the PostgreSQL connection as
an explicit pair of committed/working database snapshots, and runtime
failures (constraint violations, lost cursors) as a fault-injection
environment that decides the outcome of each issued statement and each
cursor acquisition.  Wall-clock fields (`processing_time`, timestamps) are
outside the model and omitted.
-/

namespace Tourism

/-- A Python scalar value as it appears in a row dictionary.  `null`
models Python `None` (also the value `dict.get` yields for a missing
key). -/
inductive PyVal where
  | null
  | str (s : String)
  | int (n : Int)
  deriving DecidableEq, Repr

/-- A row as returned by `RealDictCursor`: a field-name → value mapping,
kept in insertion order. -/
abbrev Row : Type := List (String × PyVal)

/-- `row.get(f)`: value of field `f`, Python `None` when the key is
missing. -/
def getField (r : Row) (f : String) : PyVal :=
  match List.lookup f r with
  | Option.some v => v
  | Option.none => PyVal.null

/-- `row.keys()`. -/
def rowKeys (r : Row) : List String := r.map Prod.fst

/-- `row['id']`.  Rows fetched from the core tables always carry the
primary-key column `id`; a missing key is modelled as `null`. -/
def rowId (r : Row) : PyVal := getField r "id"

/-- A Python dict keyed by entity id (`master_dict` / `comparison_dict`
in `_compare_table`). -/
abbrev RowDict : Type := List (PyVal × Row)

/-- Python dict insertion: a later binding for an existing key overwrites
in place, a new key is appended. -/
def dictInsert (d : RowDict) (k : PyVal) (v : Row) : RowDict :=
  if d.any (fun p => p.1 == k) then
    d.map (fun p => if p.1 == k then (k, v) else p)
  else
    d ++ [(k, v)]

/-- `{row['id']: dict(row) for row in rows}`. -/
def buildDict (rows : List Row) : RowDict :=
  rows.foldl (fun d r => dictInsert d (rowId r) r) []

/-- `dict.keys()` in insertion order. -/
def dictKeys (d : RowDict) : List PyVal := d.map Prod.fst

/-- `dict[k]` as an option. -/
def dictGet (d : RowDict) (k : PyVal) : Option Row :=
  (d.find? (fun p => p.1 == k)).map Prod.snd

/-- The operation of an `EntityChange`.  The dataclass documents
`operation ∈ {'INSERT', 'UPDATE', 'DELETE'}`; these are the only values
the detector produces and the processor dispatches on. -/
inductive Op where
  | INSERT
  | UPDATE
  | DELETE
  deriving DecidableEq, Repr

/-- The `EntityChange` dataclass of `change_detector.py`. -/
structure EntityChange where
  entity_id : PyVal
  entity_type : String
  operation : Op
  old_values : Option Row := Option.none
  new_values : Option Row := Option.none
  changed_fields : Option (List String) := Option.none
  deriving DecidableEq, Repr

/-- The changed-field scan of `_compare_table` (lines 216–226): iterate
the master row's keys, skip the audit timestamp columns, and record every
field whose `.get` values differ between the two rows. -/
def changedFieldsOf (masterRow comparisonRow : Row) : List String :=
  (rowKeys masterRow).filter (fun f =>
    decide (f ≠ "created_at" ∧ f ≠ "updated_at" ∧
      getField masterRow f ≠ getField comparisonRow f))

/-- The DELETE change built for one deleted id (lines 190–197):
`old_values = master_dict[entity_id]`, `new_values = None`. -/
def deleteChangeFor (tableName : String) (masterDict : RowDict) (i : PyVal) :
    EntityChange :=
  { entity_id := i, entity_type := tableName, operation := Op.DELETE,
    old_values := dictGet masterDict i }

/-- The INSERT change built for one inserted id (lines 200–208):
`new_values = comparison_dict[entity_id]`, `old_values = None`. -/
def insertChangeFor (tableName : String) (comparisonDict : RowDict) (i : PyVal) :
    EntityChange :=
  { entity_id := i, entity_type := tableName, operation := Op.INSERT,
    new_values := dictGet comparisonDict i }

/-- The loop body for one common id (lines 212–236): compute the changed
fields and emit an UPDATE carrying both full rows exactly when some field
changed. -/
def updateChangeFor (tableName : String) (masterDict comparisonDict : RowDict)
    (i : PyVal) : Option EntityChange :=
  let masterRow := (dictGet masterDict i).getD []
  let comparisonRow := (dictGet comparisonDict i).getD []
  let cf := changedFieldsOf masterRow comparisonRow
  if cf.isEmpty then Option.none
  else Option.some
    { entity_id := i, entity_type := tableName, operation := Op.UPDATE,
      old_values := Option.some masterRow,
      new_values := Option.some comparisonRow,
      changed_fields := Option.some cf }

/-- `ChangeDetector._compare_table`: diff one table between the master
and comparison snapshots. -/
def compareTable (masterData comparisonData : List Row) (tableName : String) :
    List EntityChange :=
  let masterDict := buildDict masterData
  let comparisonDict := buildDict comparisonData
  let masterIds := dictKeys masterDict
  let comparisonIds := dictKeys comparisonDict
  let deletedIds := masterIds.filter (fun i => decide (i ∉ comparisonIds))
  let deletes := deletedIds.map (deleteChangeFor tableName masterDict)
  let insertedIds := comparisonIds.filter (fun i => decide (i ∉ masterIds))
  let inserts := insertedIds.map (insertChangeFor tableName comparisonDict)
  let commonIds := masterIds.filter (fun i => decide (i ∈ comparisonIds))
  let updates := commonIds.filterMap (updateChangeFor tableName masterDict comparisonDict)
  deletes ++ inserts ++ updates

/-- Per-table operation counts (`{'INSERT': n, 'UPDATE': n, 'DELETE': n}`). -/
structure TableSummary where
  INSERT : Nat := 0
  UPDATE : Nat := 0
  DELETE : Nat := 0
  deriving DecidableEq, Repr

/-- `table_summary[change.operation] += 1`. -/
def bumpOp (s : TableSummary) (o : Op) : TableSummary :=
  match o with
  | Op.INSERT => { s with INSERT := s.INSERT + 1 }
  | Op.UPDATE => { s with UPDATE := s.UPDATE + 1 }
  | Op.DELETE => { s with DELETE := s.DELETE + 1 }

/-- The per-table summary loop of `compare_databases` (lines 142–144). -/
def tableSummaryOf (changes : List EntityChange) : TableSummary :=
  changes.foldl (fun s c => bumpOp s c.operation) {}

/-- The `ChangeDetectionResult` dataclass (detection_time is wall clock,
outside the model). -/
structure ChangeDetectionResult where
  master_db : String
  comparison_db : String
  total_changes : Nat
  changes_by_table : List (String × List EntityChange)
  summary : List (String × TableSummary)
  deriving DecidableEq, Repr

/-- `ChangeDetector.CORE_TABLES`. -/
def CORE_TABLES : List String :=
  ["logies", "addresses", "contact_points", "geometries", "identifiers"]

/-- `ChangeDetector.compare_databases`: run `_compare_table` over every
core table and aggregate changes, per-table summaries, and the total
change count.  The two databases are modelled as functions from table
name to row list (`_get_table_data`). -/
def compare_databases (masterDb comparisonDb : String → List Row)
    (masterName comparisonName : String) : ChangeDetectionResult :=
  let perTable := CORE_TABLES.map
    (fun t => (t, compareTable (masterDb t) (comparisonDb t) t))
  { master_db := masterName,
    comparison_db := comparisonName,
    total_changes := (perTable.map (fun p => p.2.length)).sum,
    changes_by_table := perTable,
    summary := perTable.map (fun p => (p.1, tableSummaryOf p.2)) }

/-! ## Update processor (`update_system/update_processor.py`) -/

/-- The production database: table name → rows, as an association list. -/
abbrev DB : Type := List (String × List Row)

/-- Rows of one table (empty for an unknown table name). -/
def dbGet (db : DB) (t : String) : List Row :=
  match List.lookup t db with
  | Option.some rows => rows
  | Option.none => []

/-- Replace (or create) one table's row list. -/
def dbSet (db : DB) (t : String) (rows : List Row) : DB :=
  if db.any (fun p => p.1 == t) then
    db.map (fun p => if p.1 == t then (t, rows) else p)
  else
    db ++ [(t, rows)]

/-- A SQL statement as built by `_execute_insert` / `_execute_update` /
`_execute_delete`. -/
inductive Stmt where
  | insertStmt (table : String) (values : Row)
  | updateStmt (table : String) (setValues : Row) (entityId : PyVal)
  | deleteStmt (table : String) (entityId : PyVal)
  deriving DecidableEq, Repr

/-- The table a statement is issued against. -/
def Stmt.tableOf : Stmt → String
  | Stmt.insertStmt t _ => t
  | Stmt.updateStmt t _ _ => t
  | Stmt.deleteStmt t _ => t

/-- Overwrite (or append) one field of a row. -/
def setField (r : Row) (f : String) (v : PyVal) : Row :=
  if r.any (fun p => p.1 == f) then
    r.map (fun p => if p.1 == f then (f, v) else p)
  else
    r ++ [(f, v)]

/-- Apply a SET clause to a row. -/
def mergeRow (r : Row) (upd : Row) : Row :=
  upd.foldl (fun acc p => setField acc p.1 p.2) r

/-- Row-level semantics of a successfully executed statement:
INSERT appends the row, UPDATE merges the SET clause into every row whose
`id` matches, DELETE removes every row whose `id` matches. -/
def execStmt (db : DB) (s : Stmt) : DB :=
  match s with
  | Stmt.insertStmt t vals => dbSet db t (dbGet db t ++ [vals])
  | Stmt.updateStmt t sv i =>
      dbSet db t ((dbGet db t).map (fun r => if rowId r == i then mergeRow r sv else r))
  | Stmt.deleteStmt t i =>
      dbSet db t ((dbGet db t).filter (fun r => !(rowId r == i)))

/-- An observable event on the production connection. -/
inductive DbEvent where
  | exec (s : Stmt)
  | commit
  | rollback
  deriving DecidableEq, Repr

/-- The production connection: the committed snapshot (what any other
session, and the store after the run, sees) and the working snapshot of
the open transaction.  `commit` publishes working into committed,
`rollback` resets working to committed. -/
structure ConnState where
  committed : DB
  working : DB
  deriving DecidableEq, Repr

/-- Fault-injection environment: `stmtError n s` is the error raised by
the `n`-th `cursor.execute` call (None = success), `cursorFail n` is an
error raised while acquiring the cursor for the `n`-th operation batch —
the one failure mode that escapes the per-row `except` and aborts the
apply loop. -/
structure Env where
  stmtError : Nat → Stmt → Option String
  cursorFail : Nat → Option String

/-- Processor-side connection state threaded through the apply loop. -/
structure ProcState where
  conn : ConnState
  events : List DbEvent
  stmtIdx : Nat
  batchIdx : Nat
  deriving DecidableEq, Repr

/-- Outcome of building one row's statement inside the per-row `try`. -/
inductive BuildResult where
  | stmt (s : Stmt)
  | skipRow
  | invalid (msg : String)
  deriving DecidableEq, Repr

/-- `values.pop('created_at', None); values.pop('updated_at', None)`. -/
def popTimestamps (r : Row) : Row :=
  r.filter (fun p => decide (p.1 ≠ "created_at" ∧ p.1 ≠ "updated_at"))

/-- `_execute_insert` up to the dry-run branch: `if not change.new_values`
raises (an absent *or empty* dict is falsy), otherwise the INSERT is built
from the new values minus the timestamp columns. -/
def buildInsert (tableName : String) (ch : EntityChange) : BuildResult :=
  match ch.new_values with
  | Option.none => BuildResult.invalid "INSERT operation requires new_values"
  | Option.some nv =>
      if nv.isEmpty then BuildResult.invalid "INSERT operation requires new_values"
      else BuildResult.stmt (Stmt.insertStmt tableName (popTimestamps nv))

/-- `_execute_update` up to the dry-run branch: requires truthy
`new_values` and `changed_fields`; the SET clause keeps the changed
fields that are neither system columns (`created_at`, `updated_at`, `id`)
nor missing from `new_values`; an empty SET clause returns without
issuing a statement (counted as success). -/
def buildUpdate (tableName : String) (ch : EntityChange) : BuildResult :=
  match ch.new_values, ch.changed_fields with
  | Option.some nv, Option.some cf =>
      if nv.isEmpty || cf.isEmpty then
        BuildResult.invalid "UPDATE operation requires new_values and changed_fields"
      else
        let fields := (cf.filter (fun f =>
          decide (f ≠ "created_at" ∧ f ≠ "updated_at" ∧ f ≠ "id"))).filter
          (fun f => nv.any (fun p => p.1 == f))
        if fields.isEmpty then BuildResult.skipRow
        else BuildResult.stmt (Stmt.updateStmt tableName
          (fields.map (fun f => (f, getField nv f))) ch.entity_id)
  | _, _ => BuildResult.invalid "UPDATE operation requires new_values and changed_fields"

/-- `_execute_delete` up to the dry-run branch: always a single DELETE by
entity id. -/
def buildDelete (tableName : String) (ch : EntityChange) : BuildResult :=
  BuildResult.stmt (Stmt.deleteStmt tableName ch.entity_id)

/-- Dispatch of `_apply_operation_batch` on the operation type. -/
def buildStmt (tableName : String) (opType : Op) (ch : EntityChange) : BuildResult :=
  match opType with
  | Op.INSERT => buildInsert tableName ch
  | Op.UPDATE => buildUpdate tableName ch
  | Op.DELETE => buildDelete tableName ch

/-- One iteration of the per-row loop of `_apply_operation_batch`: a
build error is caught and the row skipped; a dry run only logs the
statement; otherwise `cursor.execute` is issued (recorded as an event),
and either raises (caught, row skipped) or mutates the working snapshot.
Returns 1 exactly when `successful_count` is incremented. -/
def processRow (env : Env) (dryRun : Bool) (tableName : String) (opType : Op)
    (ch : EntityChange) (st : ProcState) : Nat × ProcState :=
  match buildStmt tableName opType ch with
  | BuildResult.invalid _ => (0, st)
  | BuildResult.skipRow => (1, st)
  | BuildResult.stmt s =>
      if dryRun then (1, st)
      else
        let st1 : ProcState :=
          { st with events := st.events ++ [DbEvent.exec s], stmtIdx := st.stmtIdx + 1 }
        match env.stmtError st.stmtIdx s with
        | Option.some _ => (0, st1)
        | Option.none =>
            (1, { st1 with conn := { st1.conn with working := execStmt st1.conn.working s } })

/-- The per-row loop over one batch. -/
def processRows (env : Env) (dryRun : Bool) (tableName : String) (opType : Op)
    (batch : List EntityChange) (st : ProcState) : Nat × ProcState :=
  batch.foldl (fun acc ch =>
    let r := processRow env dryRun tableName opType ch acc.2
    (acc.1 + r.1, r.2)) (0, st)

/-- `_apply_operation_batch`: an empty batch returns 0 immediately;
otherwise a cursor is acquired (the injected failure point that
re-raises), then every row of the batch is attempted. -/
def applyOperationBatch (env : Env) (dryRun : Bool) (tableName : String) (opType : Op)
    (batch : List EntityChange) (st : ProcState) :
    Except (String × ProcState) (Nat × ProcState) :=
  if batch.isEmpty then Except.ok (0, st)
  else
    match env.cursorFail st.batchIdx with
    | Option.some msg => Except.error (msg, { st with batchIdx := st.batchIdx + 1 })
    | Option.none =>
        Except.ok (processRows env dryRun tableName opType batch
          { st with batchIdx := st.batchIdx + 1 })

/-- `range(0, len(l), bs)` chunking, with the list length as fuel (the
caller's batch size is positive; `range` with step 0 is a Python error). -/
def chunksGo (fuel : Nat) (bs : Nat) (l : List EntityChange) : List (List EntityChange) :=
  match fuel, l with
  | 0, _ => []
  | _, [] => []
  | f + 1, l => l.take bs :: chunksGo f bs (l.drop bs)

/-- Split a list into consecutive batches of size `bs`. -/
def chunks (bs : Nat) (l : List EntityChange) : List (List EntityChange) :=
  chunksGo l.length bs l

/-- The chunked batch loop (`for i in range(0, len, batch_size)`),
summing the per-batch success counts; a re-raised batch failure stops the
loop. -/
def runBatches (env : Env) (dryRun : Bool) (tableName : String) (opType : Op) :
    List (List EntityChange) → Nat → ProcState →
    Except (String × ProcState) (Nat × ProcState)
  | [], n, st => Except.ok (n, st)
  | batch :: rest, n, st =>
    match applyOperationBatch env dryRun tableName opType batch st with
    | Except.error e => Except.error e
    | Except.ok (k, st') => runBatches env dryRun tableName opType rest (n + k) st'

/-- The batch loop of `_apply_table_changes` for one operation group:
skipped entirely when the group is empty, otherwise every chunk is run
through `_apply_operation_batch` and the successes are summed. -/
def applyOpGroup (env : Env) (dryRun : Bool) (bs : Nat) (tableName : String)
    (opType : Op) (group : List EntityChange) (st : ProcState) :
    Except (String × ProcState) (Nat × ProcState) :=
  if group.isEmpty then Except.ok (0, st)
  else runBatches env dryRun tableName opType (chunks bs group) 0 st

/-- `_apply_table_changes`: group the table's changes by operation and
process them in the fixed order DELETE, UPDATE, INSERT. -/
def applyTableChanges (env : Env) (dryRun : Bool) (bs : Nat) (tableName : String)
    (changes : List EntityChange) (st : ProcState) :
    Except (String × ProcState) (TableSummary × ProcState) :=
  let deletes := changes.filter (fun c => c.operation == Op.DELETE)
  let updates := changes.filter (fun c => c.operation == Op.UPDATE)
  let inserts := changes.filter (fun c => c.operation == Op.INSERT)
  match applyOpGroup env dryRun bs tableName Op.DELETE deletes st with
  | Except.error e => Except.error e
  | Except.ok (nd, st1) =>
    match applyOpGroup env dryRun bs tableName Op.UPDATE updates st1 with
    | Except.error e => Except.error e
    | Except.ok (nu, st2) =>
      match applyOpGroup env dryRun bs tableName Op.INSERT inserts st2 with
      | Except.error e => Except.error e
      | Except.ok (ni, st3) =>
        Except.ok ({ INSERT := ni, UPDATE := nu, DELETE := nd }, st3)

/-- The fixed dependency order of `apply_changes` (line 128). -/
def TABLE_ORDER : List String :=
  ["identifiers", "geometries", "contact_points", "addresses", "logies"]

/-- The `update_result` fields accumulated inside the apply loop. -/
structure ApplyAcc where
  summary : List (String × TableSummary) := []
  records_processed : Nat := 0
  records_applied : Nat := 0
  deriving DecidableEq, Repr

/-- The table loop of `apply_changes` (lines 130–146): walk the tables in
`TABLE_ORDER`, skip tables absent from the change-set or with an empty
change list, otherwise run `_apply_table_changes` and accumulate the
summary and counters.  A re-raised batch failure aborts the loop with
the captured message and the state at that point. -/
def applyTables (env : Env) (dryRun : Bool) (bs : Nat)
    (changesByTable : List (String × List EntityChange)) :
    List String → ProcState → ApplyAcc →
    Except (String × ProcState × ApplyAcc) (ProcState × ApplyAcc)
  | [], st, acc => Except.ok (st, acc)
  | t :: rest, st, acc =>
      match List.lookup t changesByTable with
      | Option.none => applyTables env dryRun bs changesByTable rest st acc
      | Option.some tableChanges =>
          if tableChanges.isEmpty then
            applyTables env dryRun bs changesByTable rest st acc
          else
            match applyTableChanges env dryRun bs t tableChanges st with
            | Except.error e => Except.error (e.1, e.2, acc)
            | Except.ok (tsum, st') =>
                applyTables env dryRun bs changesByTable rest st'
                  { summary := acc.summary ++ [(t, tsum)],
                    records_processed := acc.records_processed + tableChanges.length,
                    records_applied :=
                      acc.records_applied + (tsum.INSERT + tsum.UPDATE + tsum.DELETE) }

/-- Status of an `update_runs` row. -/
inductive RunStatus where
  | RUNNING
  | COMPLETED
  | FAILED
  | DRY_RUN
  | CANCELLED
  deriving DecidableEq, Repr

/-- The `update_runs` record kept by the change tracker (timestamps and
source-file metadata are outside the model). -/
structure UpdateRunRecord where
  run_id : String
  status : RunStatus
  records_added : Nat := 0
  records_updated : Nat := 0
  records_deleted : Nat := 0
  error_message : Option String := Option.none
  deriving DecidableEq, Repr

/-- `ChangeTracker.complete_update_run`: terminal update of the run row
(on the tracker's own connection, committed independently of the
production transaction). -/
def complete_update_run (r : UpdateRunRecord) (status : RunStatus)
    (recordsAdded recordsUpdated recordsDeleted : Nat)
    (errorMessage : Option String) : UpdateRunRecord :=
  { r with
    status := status,
    records_added := recordsAdded,
    records_updated := recordsUpdated,
    records_deleted := recordsDeleted,
    error_message := errorMessage }

/-- The `UpdateResult` dataclass (`processing_time` is wall clock,
outside the model). -/
structure UpdateResult where
  run_id : String
  success : Bool
  records_processed : Nat
  records_applied : Nat
  records_failed : Nat
  error_messages : List String
  summary : List (String × TableSummary)
  deriving DecidableEq, Repr

/-- `update_result.summary.get(key, 0)` as used on lines 163–165 with
`key ∈ {'INSERT', 'UPDATE', 'DELETE'}`.  `summary` is keyed by *table
name* (its keys come from `TABLE_ORDER`), so the operation-name key is
never present and the call returns the default 0; the `some` branch is
unreachable for the keys the source passes (were it reached, the Python
value would be a per-table count dict, not an integer). -/
def summaryGetNat (summary : List (String × TableSummary)) (key : String) : Nat :=
  match List.lookup key summary with
  | Option.some _ => 0
  | Option.none => 0

/-- Everything observable after `apply_changes` returns: the
`UpdateResult`, the terminal `update_runs` record, the production
connection state, and the event trace of the production connection. -/
structure ApplyOutput where
  result : UpdateResult
  run : UpdateRunRecord
  conn : ConnState
  events : List DbEvent
  deriving DecidableEq, Repr

/-- Connection state at the start of the apply transaction. -/
def initProcState (init : DB) : ProcState :=
  { conn := { committed := init, working := init }, events := [],
    stmtIdx := 0, batchIdx := 0 }

/-- `UpdateProcessor.apply_changes`.  `runId` is the UUID drawn by
`create_update_run` (which writes the RUNNING run row).  On success the
transaction is committed (or rolled back for a dry run) and the run is
completed with `'COMPLETED'`/`'DRY_RUN'` and the `summary.get(...)`
counters; on an exception escaping the apply loop the transaction is
rolled back, the message is appended to `error_messages`, and the run is
completed as `'FAILED'` with the captured message. -/
def apply_changes (env : Env) (init : DB) (runId : String)
    (changeResult : ChangeDetectionResult) (dryRun : Bool) (batchSize : Nat) :
    ApplyOutput :=
  let run0 : UpdateRunRecord := { run_id := runId, status := RunStatus.RUNNING }
  match applyTables env dryRun batchSize changeResult.changes_by_table
      TABLE_ORDER (initProcState init) {} with
  | Except.ok (st, acc) =>
      let conn1 :=
        if dryRun then { st.conn with working := st.conn.committed }
        else { st.conn with committed := st.conn.working }
      let events1 := st.events ++ [if dryRun then DbEvent.rollback else DbEvent.commit]
      let run1 := complete_update_run run0
        (if dryRun then RunStatus.DRY_RUN else RunStatus.COMPLETED)
        (summaryGetNat acc.summary "INSERT")
        (summaryGetNat acc.summary "UPDATE")
        (summaryGetNat acc.summary "DELETE")
        Option.none
      let res1 : UpdateResult :=
        { run_id := runId, success := true,
          records_processed := acc.records_processed,
          records_applied := acc.records_applied,
          records_failed := 0, error_messages := [], summary := acc.summary }
      { result := res1, run := run1, conn := conn1, events := events1 }
  | Except.error (msg, st, acc) =>
      let conn1 := { st.conn with working := st.conn.committed }
      let events1 := st.events ++ [DbEvent.rollback]
      let run1 := complete_update_run run0 RunStatus.FAILED 0 0 0 (Option.some msg)
      let res1 : UpdateResult :=
        { run_id := runId, success := false,
          records_processed := acc.records_processed,
          records_applied := acc.records_applied,
          records_failed := 0,
          error_messages := ["Update processing failed: " ++ msg],
          summary := acc.summary }
      { result := res1, run := run1, conn := conn1, events := events1 }

/-- The message of the exception aborting the apply loop, when one does. -/
def applyFailMsg (env : Env) (dryRun : Bool) (bs : Nat)
    (changesByTable : List (String × List EntityChange)) (init : DB) : Option String :=
  match applyTables env dryRun bs changesByTable TABLE_ORDER (initProcState init) {} with
  | Except.error (msg, _, _) => Option.some msg
  | Except.ok _ => Option.none

/-! ## Lemmas about the table differ -/

theorem changedFieldsOf_self (r : Row) : changedFieldsOf r r = [] := by
  unfold changedFieldsOf
  apply List.filter_eq_nil_iff.mpr
  intro f _
  simp

theorem compareTable_self (l : List Row) (t : String) : compareTable l l t = [] := by
  unfold compareTable
  simp only [List.append_eq_nil, List.map_eq_nil_iff, List.filter_eq_nil_iff]
  refine ⟨⟨?_, ?_⟩, ?_⟩
  · intro i hi
    simp [hi]
  · intro i hi
    simp [hi]
  · apply List.filterMap_eq_nil_iff.mpr
    intro i _
    simp [updateChangeFor, changedFieldsOf_self]

theorem bumpOp_sum (s : TableSummary) (o : Op) :
    (bumpOp s o).INSERT + (bumpOp s o).UPDATE + (bumpOp s o).DELETE
      = s.INSERT + s.UPDATE + s.DELETE + 1 := by
  cases o <;> simp [bumpOp] <;> omega

theorem tableSummaryOf_go (chs : List EntityChange) (s : TableSummary) :
    let r := chs.foldl (fun acc c => bumpOp acc c.operation) s
    r.INSERT + r.UPDATE + r.DELETE = s.INSERT + s.UPDATE + s.DELETE + chs.length := by
  induction chs generalizing s with
  | nil => simp
  | cons ch chs ih =>
    simp only [List.foldl_cons, List.length_cons]
    have := ih (bumpOp s ch.operation)
    simp only at this ⊢
    rw [this, bumpOp_sum]
    omega

theorem tableSummaryOf_sum (chs : List EntityChange) :
    (tableSummaryOf chs).INSERT + (tableSummaryOf chs).UPDATE
      + (tableSummaryOf chs).DELETE = chs.length := by
  have := tableSummaryOf_go chs {}
  simpa [tableSummaryOf] using this

/-- C9: comparing any snapshot against itself yields a
`ChangeDetectionResult` with `total_changes = 0` and an empty change
list for every table. -/
theorem compare_self_no_changes (db : String → List Row) (mn cn : String) :
    (compare_databases db db mn cn).total_changes = 0 ∧
    (compare_databases db db mn cn).changes_by_table
      = CORE_TABLES.map (fun t => (t, ([] : List EntityChange))) := by
  unfold compare_databases
  simp [compareTable_self, Function.comp_def, CORE_TABLES]

/-- C8: in every `ChangeDetectionResult` produced by `compare_databases`,
`total_changes` is the sum over all tables of that table's change-list
length, and each table's summary counts satisfy
`INSERT + UPDATE + DELETE = len(changes_by_table[t])`. -/
theorem compare_databases_counts (mdb cdb : String → List Row) (mn cn : String)
    (t : String) (ht : t ∈ CORE_TABLES) :
    (compare_databases mdb cdb mn cn).total_changes
      = ((compare_databases mdb cdb mn cn).changes_by_table.map
          (fun p => p.2.length)).sum ∧
    ∃ chs s,
      List.lookup t (compare_databases mdb cdb mn cn).changes_by_table
        = Option.some chs ∧
      List.lookup t (compare_databases mdb cdb mn cn).summary = Option.some s ∧
      s.INSERT + s.UPDATE + s.DELETE = chs.length := by
  constructor
  · rfl
  · simp only [CORE_TABLES, List.mem_cons, List.not_mem_nil, or_false] at ht
    unfold compare_databases
    rcases ht with h | h | h | h | h <;> subst h <;>
      exact ⟨_, _, rfl, rfl, tableSummaryOf_sum _⟩

/-- Witness for C8 at a concrete comparison: one inserted row in
`logies`. -/
theorem compare_databases_counts_case :
    "logies" ∈ CORE_TABLES ∧
    ((compare_databases (fun _ => []) (fun _ => [[("id", PyVal.str "B")]]) "m" "c").total_changes
      = ((compare_databases (fun _ => []) (fun _ => [[("id", PyVal.str "B")]]) "m" "c").changes_by_table.map
          (fun p => p.2.length)).sum ∧
    ∃ chs s,
      List.lookup "logies"
          (compare_databases (fun _ => []) (fun _ => [[("id", PyVal.str "B")]]) "m" "c").changes_by_table
        = Option.some chs ∧
      List.lookup "logies"
          (compare_databases (fun _ => []) (fun _ => [[("id", PyVal.str "B")]]) "m" "c").summary
        = Option.some s ∧
      s.INSERT + s.UPDATE + s.DELETE = chs.length) :=
  ⟨by decide,
   compare_databases_counts (fun _ => []) (fun _ => [[("id", PyVal.str "B")]]) "m" "c"
     "logies" (by decide)⟩

/-- C4 counterexample: the field `extra` exists only in the comparison
row, so under the claimed missing-means-null comparison its values differ
(`null` vs `"v"`), yet `_compare_table` emits no change at all for the
entity: fields present only in the comparison row are ignored, because
the field scan iterates `master_row.keys()` alone. -/
theorem update_comparison_only_field_ignored_cex :
    getField [("id", PyVal.str "1"), ("name", PyVal.str "a")] "extra"
      ≠ getField [("id", PyVal.str "1"), ("name", PyVal.str "a"), ("extra", PyVal.str "v")] "extra" ∧
    compareTable [[("id", PyVal.str "1"), ("name", PyVal.str "a")]]
      [[("id", PyVal.str "1"), ("name", PyVal.str "a"), ("extra", PyVal.str "v")]]
      "logies" = [] := by
  constructor
  · decide
  · decide

/-- C4 (amended): for every UPDATE emitted by the table differ,
`changed_fields` is non-empty and consists exactly of the *baseline*
row's fields (audit columns excluded) whose values differ between the two
rows under missing-means-null lookup.  Hence every listed field differs,
every unlisted baseline field (excluding `created_at`/`updated_at`) is
equal, a field of the baseline row missing from the comparison row is
compared against null — but a field present only in the comparison row is
ignored, not compared. -/
theorem update_changed_fields_sound (m c : List Row) (t : String) (ch : EntityChange)
    (hch : ch ∈ compareTable m c t) (hop : ch.operation = Op.UPDATE) :
    ∃ mr cr cf, ch.old_values = Option.some mr ∧ ch.new_values = Option.some cr ∧
      ch.changed_fields = Option.some cf ∧ cf ≠ [] ∧
      ∀ f, f ∈ cf ↔ (f ∈ rowKeys mr ∧ f ≠ "created_at" ∧ f ≠ "updated_at" ∧
        getField mr f ≠ getField cr f) := by
  unfold compareTable at hch
  simp only [List.mem_append, List.mem_map, List.mem_filter,
    List.mem_filterMap] at hch
  rcases hch with (⟨i, _, hi⟩ | ⟨i, _, hi⟩) | ⟨i, _, hi⟩
  · rw [← hi] at hop; simp [deleteChangeFor] at hop
  · rw [← hi] at hop; simp [insertChangeFor] at hop
  · simp only [updateChangeFor] at hi
    split at hi
    · exact absurd hi (by simp)
    · next hcf =>
      injection hi with h
      subst h
      refine ⟨_, _, _, rfl, rfl, rfl, ?_, ?_⟩
      · intro hnil
        rw [hnil] at hcf
        simp at hcf
      · intro f
        simp [changedFieldsOf, List.mem_filter]

/-- Witness for C4's amended theorem: the spec scenario's UPDATE of
entity `A` (name and sleeping places changed). -/
theorem update_changed_fields_sound_case :
    ∃ ch, ch ∈ compareTable
        [[("id", PyVal.str "A"), ("name", PyVal.str "Old Hotel"), ("sleeping_places", PyVal.int 2)]]
        [[("id", PyVal.str "A"), ("name", PyVal.str "New Hotel"), ("sleeping_places", PyVal.int 4)]]
        "logies" ∧ ch.operation = Op.UPDATE ∧
      (∃ mr cr cf, ch.old_values = Option.some mr ∧ ch.new_values = Option.some cr ∧
        ch.changed_fields = Option.some cf ∧ cf ≠ [] ∧
        ∀ f, f ∈ cf ↔ (f ∈ rowKeys mr ∧ f ≠ "created_at" ∧ f ≠ "updated_at" ∧
          getField mr f ≠ getField cr f)) := by
  refine ⟨?ch, ?_, ?_, ?_⟩
  case ch =>
    exact
      { entity_id := PyVal.str "A"
        entity_type := "logies"
        operation := Op.UPDATE
        old_values := Option.some [("id", PyVal.str "A"), ("name", PyVal.str "Old Hotel"),
          ("sleeping_places", PyVal.int 2)]
        new_values := Option.some [("id", PyVal.str "A"), ("name", PyVal.str "New Hotel"),
          ("sleeping_places", PyVal.int 4)]
        changed_fields := Option.some ["name", "sleeping_places"] }
  · decide
  · decide
  · exact update_changed_fields_sound
      [[("id", PyVal.str "A"), ("name", PyVal.str "Old Hotel"), ("sleeping_places", PyVal.int 2)]]
      [[("id", PyVal.str "A"), ("name", PyVal.str "New Hotel"), ("sleeping_places", PyVal.int 4)]]
      "logies" _ (by decide) (by decide)

/-! ## The key→row maps under the snapshot uniqueness invariant -/

theorem dictInsert_of_not_mem (d : RowDict) (k : PyVal) (v : Row)
    (h : d.any (fun p => p.1 == k) = false) : dictInsert d k v = d ++ [(k, v)] := by
  simp [dictInsert, h]

theorem buildDict_go (rows : List Row) (acc : RowDict)
    (h1 : (rows.map rowId).Nodup)
    (h2 : ∀ r ∈ rows, ∀ p ∈ acc, p.1 ≠ rowId r) :
    rows.foldl (fun d r => dictInsert d (rowId r) r) acc
      = acc ++ rows.map (fun r => (rowId r, r)) := by
  induction rows generalizing acc with
  | nil => simp
  | cons r rs ih =>
    simp only [List.map_cons, List.nodup_cons] at h1
    simp only [List.foldl_cons, List.map_cons]
    have hany : acc.any (fun p => p.1 == rowId r) = false := by
      rw [List.any_eq_false]
      intro p hp
      simpa using h2 r (by simp) p hp
    rw [dictInsert_of_not_mem _ _ _ hany]
    rw [ih (acc ++ [(rowId r, r)]) h1.2]
    · simp
    · intro r' hr' p hp
      rcases List.mem_append.mp hp with hp | hp
      · exact h2 r' (List.mem_cons_of_mem _ hr') p hp
      · simp only [List.mem_singleton] at hp
        subst hp
        intro hEq
        simp only at hEq
        exact h1.1 (hEq ▸ List.mem_map_of_mem rowId hr')

theorem buildDict_eq (rows : List Row) (h : (rows.map rowId).Nodup) :
    buildDict rows = rows.map (fun r => (rowId r, r)) := by
  unfold buildDict
  rw [buildDict_go rows [] h (by simp)]
  simp

theorem dictKeys_buildDict (rows : List Row) (h : (rows.map rowId).Nodup) :
    dictKeys (buildDict rows) = rows.map rowId := by
  rw [buildDict_eq rows h]
  simp [dictKeys]

theorem dictGet_buildDict (rows : List Row) (h : (rows.map rowId).Nodup) (i : PyVal) :
    dictGet (buildDict rows) i = rows.find? (fun r => rowId r == i) := by
  rw [buildDict_eq rows h]
  simp only [dictGet, List.find?_map]
  rw [Option.map_map]
  have : (fun r : Row => (rowId r, r).1 == i) = (fun r : Row => rowId r == i) := rfl
  simp [Function.comp_def]

theorem dictGet_mem_of_mem (rows : List Row) (h : (rows.map rowId).Nodup) (i : PyVal)
    (hi : i ∈ rows.map rowId) :
    ∃ r, r ∈ rows ∧ rowId r = i ∧ dictGet (buildDict rows) i = Option.some r := by
  rw [dictGet_buildDict rows h i]
  have hsome : (rows.find? (fun r => rowId r == i)).isSome := by
    rw [List.find?_isSome]
    rcases List.mem_map.mp hi with ⟨r, hr, hri⟩
    exact ⟨r, hr, by simp [hri]⟩
  rcases Option.isSome_iff_exists.mp hsome with ⟨r, hr⟩
  refine ⟨r, List.mem_of_find?_eq_some hr, ?_, hr⟩
  have := List.find?_some hr
  simpa using this

/-! ## Counting helpers for the partition property -/

/-- `ch` is the change for entity `i` with operation `o`. -/
def matchesOp (i : PyVal) (o : Op) (ch : EntityChange) : Bool :=
  ch.entity_id == i && ch.operation == o

theorem countP_beq_nodup (l : List PyVal) (hl : l.Nodup) (i : PyVal) :
    l.countP (fun j => j == i) = if i ∈ l then 1 else 0 := by
  induction l with
  | nil => simp
  | cons a l ih =>
    simp only [List.nodup_cons] at hl
    rw [List.countP_cons]
    by_cases hai : a = i
    · subst hai
      have hz : l.countP (fun j => j == a) = 0 := by
        rw [List.countP_eq_zero]
        intro j hj
        simp only [beq_iff_eq]
        intro hja
        exact hl.1 (hja ▸ hj)
      simp [hz]
    · have : ((a == i) : Bool) = false := by simpa using fun h => hai h
      simp only [this, if_false, Nat.add_zero, ih hl.2, List.mem_cons]
      have : (i = a ∨ i ∈ l) ↔ i ∈ l := by
        constructor
        · rintro (h | h)
          · exact absurd h.symm hai
          · exact h
        · exact Or.inr
      rw [if_congr this rfl rfl]
      simp

theorem countP_filterMap_le (l : List PyVal) (g : PyVal → Option EntityChange)
    (p : EntityChange → Bool) (i : PyVal)
    (hg : ∀ a ch, g a = Option.some ch → p ch = true → a = i) :
    (l.filterMap g).countP p ≤ l.countP (fun j => j == i) := by
  induction l with
  | nil => simp
  | cons a l ih =>
    rw [List.filterMap_cons, List.countP_cons]
    cases hga : g a with
    | none => exact Nat.le_trans ih (Nat.le_add_right _ _)
    | some ch =>
      rw [List.countP_cons]
      by_cases hp : p ch = true
      · have ha : a = i := hg a ch hga hp
        subst ha
        simp only [hp, if_true, beq_self_eq_true]
        omega
      · have : p ch = false := by simpa using hp
        simp only [this, if_false, Nat.add_zero]
        exact Nat.le_trans ih (Nat.le_add_right _ _)

theorem updateChangeFor_some (t : String) (md cd : RowDict) (j : PyVal)
    (ch : EntityChange) (h : updateChangeFor t md cd j = Option.some ch) :
    ch.entity_id = j ∧ ch.operation = Op.UPDATE := by
  simp only [updateChangeFor] at h
  split at h
  · exact absurd h (by simp)
  · injection h with h
    subst h
    exact ⟨rfl, rfl⟩

/-- `_compare_table` written out: DELETE changes for the ids only in the
master map, INSERT changes for the ids only in the comparison map, then
the UPDATE survivors of the common ids. -/
theorem compareTable_eq (m c : List Row) (t : String) :
    compareTable m c t
      = ((dictKeys (buildDict m)).filter
            (fun j => decide (j ∉ dictKeys (buildDict c)))).map
          (deleteChangeFor t (buildDict m))
        ++ ((dictKeys (buildDict c)).filter
            (fun j => decide (j ∉ dictKeys (buildDict m)))).map
          (insertChangeFor t (buildDict c))
        ++ ((dictKeys (buildDict m)).filter
            (fun j => decide (j ∈ dictKeys (buildDict c)))).filterMap
          (updateChangeFor t (buildDict m) (buildDict c)) := rfl

/-- C3: under the snapshot invariant (ids unique per table), the differ
emits exactly one DELETE for each id only in the baseline (with
`old_values` the baseline row and `new_values` null), exactly one INSERT
for each id only in the comparison (with `new_values` the comparison row
and `old_values` null), at most one UPDATE for each common id, nothing
for ids absent from both, and no id appears in two different operation
lists for the same table (its total change count is at most one). -/
theorem compareTable_partitions_ids (m c : List Row) (t : String)
    (hm : (m.map rowId).Nodup) (hc : (c.map rowId).Nodup) (i : PyVal) :
    ((compareTable m c t).countP (matchesOp i Op.DELETE)
        = if i ∈ m.map rowId ∧ i ∉ c.map rowId then 1 else 0) ∧
    ((compareTable m c t).countP (matchesOp i Op.INSERT)
        = if i ∈ c.map rowId ∧ i ∉ m.map rowId then 1 else 0) ∧
    ((compareTable m c t).countP (matchesOp i Op.UPDATE)
        ≤ if i ∈ m.map rowId ∧ i ∈ c.map rowId then 1 else 0) ∧
    ((compareTable m c t).countP (fun ch => ch.entity_id == i) ≤ 1) ∧
    (i ∉ m.map rowId → i ∉ c.map rowId →
      (compareTable m c t).countP (fun ch => ch.entity_id == i) = 0) ∧
    (∀ ch ∈ compareTable m c t, ch.entity_id = i →
      (ch.operation = Op.DELETE →
        ch.new_values = Option.none ∧
        ∃ r, r ∈ m ∧ rowId r = i ∧ ch.old_values = Option.some r) ∧
      (ch.operation = Op.INSERT →
        ch.old_values = Option.none ∧
        ∃ r, r ∈ c ∧ rowId r = i ∧ ch.new_values = Option.some r)) := by
  set mIds := m.map rowId with hmIds
  set cIds := c.map rowId with hcIds
  set dIds := mIds.filter (fun j => decide (j ∉ cIds)) with hdIds
  set iIds := cIds.filter (fun j => decide (j ∉ mIds)) with hiIds
  set uIds := mIds.filter (fun j => decide (j ∈ cIds)) with huIds
  set S1 := dIds.map (deleteChangeFor t (buildDict m)) with hS1
  set S2 := iIds.map (insertChangeFor t (buildDict c)) with hS2
  set S3 := uIds.filterMap (updateChangeFor t (buildDict m) (buildDict c)) with hS3
  have hsplit : compareTable m c t = S1 ++ S2 ++ S3 := by
    rw [compareTable_eq, dictKeys_buildDict m hm, dictKeys_buildDict c hc]
  have hcount : ∀ p : EntityChange → Bool,
      (compareTable m c t).countP p = S1.countP p + S2.countP p + S3.countP p := by
    intro p
    rw [hsplit, List.countP_append, List.countP_append]
  have hdel1 : S1.countP (matchesOp i Op.DELETE)
      = if i ∈ mIds ∧ i ∉ cIds then 1 else 0 := by
    rw [hS1, List.countP_map]
    have heq : (matchesOp i Op.DELETE ∘ deleteChangeFor t (buildDict m))
        = (fun j => j == i) := by
      funext j
      simp [matchesOp, deleteChangeFor, Function.comp_def]
    have hmem : i ∈ dIds ↔ (i ∈ mIds ∧ i ∉ cIds) := by
      simp [hdIds, List.mem_filter]
    rw [heq, countP_beq_nodup _ (hm.filter _) i, if_congr hmem rfl rfl]
  have heid1 : S1.countP (fun ch => ch.entity_id == i)
      = if i ∈ mIds ∧ i ∉ cIds then 1 else 0 := by
    rw [hS1, List.countP_map]
    have heq : ((fun ch : EntityChange => ch.entity_id == i)
        ∘ deleteChangeFor t (buildDict m)) = (fun j => j == i) := by
      funext j
      simp [deleteChangeFor, Function.comp_def]
    have hmem : i ∈ dIds ↔ (i ∈ mIds ∧ i ∉ cIds) := by
      simp [hdIds, List.mem_filter]
    rw [heq, countP_beq_nodup _ (hm.filter _) i, if_congr hmem rfl rfl]
  have hins2 : S2.countP (matchesOp i Op.INSERT)
      = if i ∈ cIds ∧ i ∉ mIds then 1 else 0 := by
    rw [hS2, List.countP_map]
    have heq : (matchesOp i Op.INSERT ∘ insertChangeFor t (buildDict c))
        = (fun j => j == i) := by
      funext j
      simp [matchesOp, insertChangeFor, Function.comp_def]
    have hmem : i ∈ iIds ↔ (i ∈ cIds ∧ i ∉ mIds) := by
      simp [hiIds, List.mem_filter]
    rw [heq, countP_beq_nodup _ (hc.filter _) i, if_congr hmem rfl rfl]
  have heid2 : S2.countP (fun ch => ch.entity_id == i)
      = if i ∈ cIds ∧ i ∉ mIds then 1 else 0 := by
    rw [hS2, List.countP_map]
    have heq : ((fun ch : EntityChange => ch.entity_id == i)
        ∘ insertChangeFor t (buildDict c)) = (fun j => j == i) := by
      funext j
      simp [insertChangeFor, Function.comp_def]
    have hmem : i ∈ iIds ↔ (i ∈ cIds ∧ i ∉ mIds) := by
      simp [hiIds, List.mem_filter]
    rw [heq, countP_beq_nodup _ (hc.filter _) i, if_congr hmem rfl rfl]
  have hdel2 : S2.countP (matchesOp i Op.DELETE) = 0 := by
    rw [hS2, List.countP_map, List.countP_eq_zero]
    intro j _
    simp [matchesOp, insertChangeFor, Function.comp_def]
  have hins1 : S1.countP (matchesOp i Op.INSERT) = 0 := by
    rw [hS1, List.countP_map, List.countP_eq_zero]
    intro j _
    simp [matchesOp, deleteChangeFor, Function.comp_def]
  have hupd1 : S1.countP (matchesOp i Op.UPDATE) = 0 := by
    rw [hS1, List.countP_map, List.countP_eq_zero]
    intro j _
    simp [matchesOp, deleteChangeFor, Function.comp_def]
  have hupd2 : S2.countP (matchesOp i Op.UPDATE) = 0 := by
    rw [hS2, List.countP_map, List.countP_eq_zero]
    intro j _
    simp [matchesOp, insertChangeFor, Function.comp_def]
  have hdel3 : S3.countP (matchesOp i Op.DELETE) = 0 := by
    rw [hS3, List.countP_eq_zero]
    intro ch hch
    rcases List.mem_filterMap.mp hch with ⟨j, _, hj⟩
    rcases updateChangeFor_some _ _ _ _ _ hj with ⟨_, hop⟩
    simp [matchesOp, hop]
  have hins3 : S3.countP (matchesOp i Op.INSERT) = 0 := by
    rw [hS3, List.countP_eq_zero]
    intro ch hch
    rcases List.mem_filterMap.mp hch with ⟨j, _, hj⟩
    rcases updateChangeFor_some _ _ _ _ _ hj with ⟨_, hop⟩
    simp [matchesOp, hop]
  have hu3 : ∀ p : EntityChange → Bool, (∀ ch, p ch = true → ch.entity_id = i) →
      S3.countP p ≤ if i ∈ mIds ∧ i ∈ cIds then 1 else 0 := by
    intro p hp
    rw [hS3]
    have hle := countP_filterMap_le uIds
      (updateChangeFor t (buildDict m) (buildDict c)) p i ?_
    · refine Nat.le_trans hle ?_
      have hmem : i ∈ uIds ↔ (i ∈ mIds ∧ i ∈ cIds) := by
        simp [huIds, List.mem_filter]
      rw [countP_beq_nodup _ (hm.filter _) i, if_congr hmem rfl rfl]
    · intro a ch hch hpch
      rcases updateChangeFor_some _ _ _ _ _ hch with ⟨heid, _⟩
      rw [← heid]
      exact hp ch hpch
  have hupd3 : S3.countP (matchesOp i Op.UPDATE)
      ≤ if i ∈ mIds ∧ i ∈ cIds then 1 else 0 := by
    refine hu3 _ ?_
    intro ch hpch
    simp only [matchesOp, Bool.and_eq_true, beq_iff_eq] at hpch
    exact hpch.1
  have heid3 : S3.countP (fun ch => ch.entity_id == i)
      ≤ if i ∈ mIds ∧ i ∈ cIds then 1 else 0 := by
    refine hu3 _ ?_
    intro ch hpch
    simpa using hpch
  refine ⟨?_, ?_, ?_, ?_, ?_, ?_⟩
  · rw [hcount, hdel1, hdel2, hdel3]
    simp
  · rw [hcount, hins1, hins2, hins3]
    simp
  · rw [hcount, hupd1, hupd2]
    simpa using hupd3
  · rw [hcount, heid1, heid2]
    by_cases h1 : i ∈ mIds <;> by_cases h2 : i ∈ cIds <;>
      simp only [h1, h2, not_true, not_false_iff, and_true, and_false,
        true_and, false_and, if_true, if_false] at heid3 ⊢ <;>
      omega
  · intro h1 h2
    rw [hcount, heid1, heid2]
    simp only [h1, h2, not_true, not_false_iff, and_true, and_false,
      true_and, false_and, if_true, if_false] at heid3 ⊢
    omega
  · intro ch hch hche
    rw [hsplit] at hch
    simp only [List.mem_append] at hch
    rcases hch with (hch | hch) | hch
    · rcases List.mem_map.mp hch with ⟨j, hj, hjch⟩
      have hji : j = i := by
        rw [← hche, ← hjch]
        rfl
      subst hji
      rw [← hjch]
      constructor
      · intro _
        have hjm : j ∈ mIds := (List.mem_filter.mp hj).1
        rcases dictGet_mem_of_mem m hm j hjm with ⟨r, hrm, hri, hget⟩
        exact ⟨rfl, r, hrm, hri, by simp [deleteChangeFor, hget]⟩
      · intro hop
        simp [deleteChangeFor] at hop
    · rcases List.mem_map.mp hch with ⟨j, hj, hjch⟩
      have hji : j = i := by
        rw [← hche, ← hjch]
        rfl
      subst hji
      rw [← hjch]
      constructor
      · intro hop
        simp [insertChangeFor] at hop
      · intro _
        have hjc : j ∈ cIds := (List.mem_filter.mp hj).1
        rcases dictGet_mem_of_mem c hc j hjc with ⟨r, hrc, hri, hget⟩
        exact ⟨rfl, r, hrc, hri, by simp [insertChangeFor, hget]⟩
    · rcases List.mem_filterMap.mp hch with ⟨j, _, hj⟩
      rcases updateChangeFor_some _ _ _ _ _ hj with ⟨_, hop⟩
      constructor
      · intro hd
        rw [hop] at hd
        simp at hd
      · intro hd
        rw [hop] at hd
        simp at hd

/-- Baseline rows of the spec's worked scenario. -/
def scenarioBaseline : List Row :=
  [[("id", PyVal.str "A"), ("name", PyVal.str "Old Hotel"), ("sleeping_places", PyVal.int 2)],
   [("id", PyVal.str "C"), ("name", PyVal.str "Old Inn")]]

/-- Comparison rows of the spec's worked scenario. -/
def scenarioComparison : List Row :=
  [[("id", PyVal.str "A"), ("name", PyVal.str "New Hotel"), ("sleeping_places", PyVal.int 4)],
   [("id", PyVal.str "B"), ("name", PyVal.str "New Museum")]]

/-- Witness for C3: in the spec scenario the id `C` (present only in the
baseline) gets exactly one DELETE change. -/
theorem compareTable_partitions_ids_case :
    (scenarioBaseline.map rowId).Nodup ∧ (scenarioComparison.map rowId).Nodup ∧
    (compareTable scenarioBaseline scenarioComparison "logies").countP
      (matchesOp (PyVal.str "C") Op.DELETE) = 1 := by
  refine ⟨by decide, by decide, ?_⟩
  have h := (compareTable_partitions_ids scenarioBaseline scenarioComparison "logies"
    (by decide) (by decide) (PyVal.str "C")).1
  rw [h, if_pos (by decide)]

/-! ## Frame and no-commit invariants of the apply loop -/

/-- Drop the listed tables from a database snapshot (the view of
everything the apply loop is not supposed to touch). -/
def dbEraseTables (db : DB) (ts : List String) : DB :=
  db.filter (fun p => decide (p.1 ∉ ts))

/-- All the state evolution the apply loop is allowed between two
processor states: the committed snapshot is untouched, tables outside
`ts` are untouched in the working snapshot, and the only events appended
are statement executions against tables in `ts`. -/
def Evolves (ts : List String) (st st' : ProcState) : Prop :=
  st'.conn.committed = st.conn.committed ∧
  dbEraseTables st'.conn.working ts = dbEraseTables st.conn.working ts ∧
  ∃ es, st'.events = st.events ++ es ∧
    ∀ e ∈ es, ∃ s, e = DbEvent.exec s ∧ Stmt.tableOf s ∈ ts

theorem Evolves.refl (ts : List String) (st : ProcState) : Evolves ts st st :=
  ⟨rfl, rfl, [], by simp, by simp⟩

theorem Evolves.trans {ts : List String} {st1 st2 st3 : ProcState}
    (h12 : Evolves ts st1 st2) (h23 : Evolves ts st2 st3) : Evolves ts st1 st3 := by
  obtain ⟨hc12, hw12, es12, he12, hs12⟩ := h12
  obtain ⟨hc23, hw23, es23, he23, hs23⟩ := h23
  refine ⟨hc23.trans hc12, hw23.trans hw12, es12 ++ es23, ?_, ?_⟩
  · rw [he23, he12, List.append_assoc]
  · intro e he
    rcases List.mem_append.mp he with he | he
    · exact hs12 e he
    · exact hs23 e he

theorem filter_map_overwrite (db : DB) (t : String) (rows : List Row)
    (ts : List String) (ht : t ∈ ts) :
    List.filter (fun p => decide (p.1 ∉ ts))
        (db.map (fun p => if p.1 == t then (t, rows) else p))
      = List.filter (fun p => decide (p.1 ∉ ts)) db := by
  induction db with
  | nil => simp
  | cons p db ih =>
    simp only [List.map_cons, List.filter_cons]
    by_cases hp : p.1 = t
    · have h1 : (p.1 == t) = true := by simpa using hp
      have h2 : (decide (t ∉ ts)) = false := by simpa using ht
      have h3 : (decide (p.1 ∉ ts)) = false := by simp [hp, ht]
      simp only [h1, if_true, h2, h3, Bool.false_eq_true, if_false]
      exact ih
    · have h1 : (p.1 == t) = false := by simpa using hp
      simp only [h1, Bool.false_eq_true, if_false]
      split
      · rw [ih]
      · rw [ih]

theorem dbSet_erase (db : DB) (t : String) (rows : List Row) (ts : List String)
    (ht : t ∈ ts) : dbEraseTables (dbSet db t rows) ts = dbEraseTables db ts := by
  unfold dbSet dbEraseTables
  split
  · exact filter_map_overwrite db t rows ts ht
  · rw [List.filter_append]
    simp [ht]

theorem execStmt_erase (db : DB) (s : Stmt) (ts : List String)
    (ht : Stmt.tableOf s ∈ ts) :
    dbEraseTables (execStmt db s) ts = dbEraseTables db ts := by
  cases s with
  | insertStmt t vals => exact dbSet_erase _ _ _ _ ht
  | updateStmt t sv i => exact dbSet_erase _ _ _ _ ht
  | deleteStmt t i => exact dbSet_erase _ _ _ _ ht

theorem buildStmt_table (tableName : String) (opType : Op) (ch : EntityChange)
    (s : Stmt) (h : buildStmt tableName opType ch = BuildResult.stmt s) :
    Stmt.tableOf s = tableName := by
  cases opType with
  | INSERT =>
    cases hnv : ch.new_values with
    | none => simp [buildStmt, buildInsert, hnv] at h
    | some nv =>
      simp only [buildStmt, buildInsert, hnv] at h
      split at h
      · exact absurd h (by simp)
      · injection h with h
        rw [← h]
        rfl
  | UPDATE =>
    cases hnv : ch.new_values with
    | none => simp [buildStmt, buildUpdate, hnv] at h
    | some nv =>
      cases hcf : ch.changed_fields with
      | none => simp [buildStmt, buildUpdate, hnv, hcf] at h
      | some cf =>
        simp only [buildStmt, buildUpdate, hnv, hcf] at h
        split at h
        · exact absurd h (by simp)
        · split at h
          · exact absurd h (by simp)
          · injection h with h
            rw [← h]
            rfl
  | DELETE =>
    simp only [buildStmt, buildDelete] at h
    injection h with h
    rw [← h]
    rfl

theorem processRow_evolves (env : Env) (dryRun : Bool) (ts : List String)
    (tableName : String) (opType : Op) (ch : EntityChange) (st : ProcState)
    (ht : tableName ∈ ts) :
    Evolves ts st (processRow env dryRun tableName opType ch st).2 := by
  unfold processRow
  cases hb : buildStmt tableName opType ch with
  | invalid msg => exact Evolves.refl ts st
  | skipRow => exact Evolves.refl ts st
  | stmt s =>
    have hst : Stmt.tableOf s = tableName := buildStmt_table _ _ _ _ hb
    cases dryRun with
    | true => exact Evolves.refl ts st
    | false =>
      simp only [Bool.false_eq_true, if_false]
      cases he : env.stmtError st.stmtIdx s with
      | some msg =>
        exact ⟨rfl, rfl, [DbEvent.exec s], rfl, by
          intro e hmem
          simp only [List.mem_singleton] at hmem
          exact ⟨s, hmem, hst ▸ ht⟩⟩
      | none =>
        refine ⟨rfl, ?_, [DbEvent.exec s], rfl, by
          intro e hmem
          simp only [List.mem_singleton] at hmem
          exact ⟨s, hmem, hst ▸ ht⟩⟩
        exact execStmt_erase _ _ _ (hst ▸ ht)

theorem processRows_evolves (env : Env) (dryRun : Bool) (ts : List String)
    (tableName : String) (opType : Op) (batch : List EntityChange)
    (st : ProcState) (ht : tableName ∈ ts) :
    Evolves ts st (processRows env dryRun tableName opType batch st).2 := by
  unfold processRows
  suffices h : ∀ (n : Nat) (st0 : ProcState), Evolves ts st st0 →
      Evolves ts st (batch.foldl (fun acc ch =>
        let r := processRow env dryRun tableName opType ch acc.2
        (acc.1 + r.1, r.2)) (n, st0)).2 by
    exact h 0 st (Evolves.refl ts st)
  induction batch with
  | nil => intro n st0 h0; simpa using h0
  | cons ch batch ih =>
    intro n st0 h0
    simp only [List.foldl_cons]
    exact ih _ _ (h0.trans (processRow_evolves env dryRun ts tableName opType ch st0 ht))

/-- The processor state reached by a batch-level step, on both outcomes. -/
def errState {α : Type} : Except (String × ProcState) (α × ProcState) → ProcState
  | Except.ok (_, st) => st
  | Except.error (_, st) => st

theorem applyOperationBatch_evolves (env : Env) (dryRun : Bool) (ts : List String)
    (tableName : String) (opType : Op) (batch : List EntityChange)
    (st : ProcState) (ht : tableName ∈ ts) :
    Evolves ts st (errState (applyOperationBatch env dryRun tableName opType batch st)) := by
  unfold applyOperationBatch
  split
  · exact Evolves.refl ts st
  · cases hcf : env.cursorFail st.batchIdx with
    | some msg => exact Evolves.refl ts st
    | none =>
      simp only [errState]
      exact processRows_evolves env dryRun ts tableName opType batch _ ht

theorem runBatches_evolves (env : Env) (dryRun : Bool) (ts : List String)
    (tableName : String) (opType : Op) (batches : List (List EntityChange))
    (n : Nat) (st : ProcState) (ht : tableName ∈ ts) :
    Evolves ts st (errState (runBatches env dryRun tableName opType batches n st)) := by
  induction batches generalizing n st with
  | nil => exact Evolves.refl ts st
  | cons batch rest ih =>
    unfold runBatches
    cases hb : applyOperationBatch env dryRun tableName opType batch st with
    | error e =>
      have h1 := applyOperationBatch_evolves env dryRun ts tableName opType batch st ht
      rw [hb] at h1
      simpa [errState] using h1
    | ok r =>
      have h1 := applyOperationBatch_evolves env dryRun ts tableName opType batch st ht
      rw [hb] at h1
      simp only [errState] at h1
      exact h1.trans (ih (n + r.1) r.2)

theorem applyOpGroup_evolves (env : Env) (dryRun : Bool) (ts : List String)
    (bs : Nat) (tableName : String) (opType : Op) (group : List EntityChange)
    (st : ProcState) (ht : tableName ∈ ts) :
    Evolves ts st (errState (applyOpGroup env dryRun bs tableName opType group st)) := by
  unfold applyOpGroup
  split
  · exact Evolves.refl ts st
  · exact runBatches_evolves env dryRun ts tableName opType (chunks bs group) 0 st ht

theorem applyTableChanges_evolves (env : Env) (dryRun : Bool) (ts : List String)
    (bs : Nat) (tableName : String) (changes : List EntityChange)
    (st : ProcState) (ht : tableName ∈ ts) :
    Evolves ts st (errState (applyTableChanges env dryRun bs tableName changes st)) := by
  simp only [applyTableChanges]
  split
  · next e h1 =>
    have e1 := applyOpGroup_evolves env dryRun ts bs tableName Op.DELETE
      (changes.filter (fun c => c.operation == Op.DELETE)) st ht
    rw [h1] at e1
    simpa [errState] using e1
  · next nd st1 h1 =>
    have e1 := applyOpGroup_evolves env dryRun ts bs tableName Op.DELETE
      (changes.filter (fun c => c.operation == Op.DELETE)) st ht
    rw [h1] at e1
    simp only [errState] at e1
    split
    · next e h2 =>
      have e2 := applyOpGroup_evolves env dryRun ts bs tableName Op.UPDATE
        (changes.filter (fun c => c.operation == Op.UPDATE)) st1 ht
      rw [h2] at e2
      simpa [errState] using e1.trans e2
    · next nu st2 h2 =>
      have e2 := applyOpGroup_evolves env dryRun ts bs tableName Op.UPDATE
        (changes.filter (fun c => c.operation == Op.UPDATE)) st1 ht
      rw [h2] at e2
      simp only [errState] at e2
      split
      · next e h3 =>
        have e3 := applyOpGroup_evolves env dryRun ts bs tableName Op.INSERT
          (changes.filter (fun c => c.operation == Op.INSERT)) st2 ht
        rw [h3] at e3
        simpa [errState] using (e1.trans e2).trans e3
      · next ni st3 h3 =>
        have e3 := applyOpGroup_evolves env dryRun ts bs tableName Op.INSERT
          (changes.filter (fun c => c.operation == Op.INSERT)) st2 ht
        rw [h3] at e3
        simp only [errState] at e3
        simpa [errState] using (e1.trans e2).trans e3

/-- The processor state reached by the table loop, on both outcomes. -/
def loopState :
    Except (String × ProcState × ApplyAcc) (ProcState × ApplyAcc) → ProcState
  | Except.ok (st, _) => st
  | Except.error (_, st, _) => st

theorem applyTables_evolves (env : Env) (dryRun : Bool) (ts : List String)
    (bs : Nat) (cbt : List (String × List EntityChange)) (tables : List String)
    (st : ProcState) (acc : ApplyAcc) (hts : ∀ t ∈ tables, t ∈ ts) :
    Evolves ts st (loopState (applyTables env dryRun bs cbt tables st acc)) := by
  induction tables generalizing st acc with
  | nil => exact Evolves.refl ts st
  | cons t rest ih =>
    have htI : t ∈ ts := hts t (by simp)
    have hrest : ∀ u ∈ rest, u ∈ ts := fun u hu => hts u (by simp [hu])
    unfold applyTables
    cases hl : List.lookup t cbt with
    | none => exact ih st acc hrest
    | some tableChanges =>
      dsimp only
      by_cases hemp : tableChanges.isEmpty
      · rw [if_pos hemp]
        exact ih st acc hrest
      · rw [if_neg hemp]
        cases hc : applyTableChanges env dryRun bs t tableChanges st with
        | error e =>
          have e1 := applyTableChanges_evolves env dryRun ts bs t tableChanges st htI
          rw [hc] at e1
          simpa [errState, loopState] using e1
        | ok r =>
          obtain ⟨tsum, st'⟩ := r
          have e1 := applyTableChanges_evolves env dryRun ts bs t tableChanges st htI
          rw [hc] at e1
          simp only [errState] at e1
          exact e1.trans (ih st' _ hrest)

/-- C1: if an unhandled exception escapes the apply loop (for any
change-set, batch size, dry-run flag, fault environment and initial
store), the transaction is rolled back — the production store (both the
committed snapshot and the session's working snapshot after ROLLBACK) is
exactly its pre-apply state and no COMMIT was ever issued — the
`UpdateRun` is completed as FAILED carrying the (non-empty) captured
message, and the returned `UpdateResult` has `success = false` with the
error recorded in `error_messages`. -/
theorem apply_changes_fatal_error_rolls_back
    (env : Env) (init : DB) (runId : String) (cr : ChangeDetectionResult)
    (dryRun : Bool) (bs : Nat) (msg : String)
    (hfail : applyFailMsg env dryRun bs cr.changes_by_table init = Option.some msg)
    (hmsg : msg ≠ "") :
    (apply_changes env init runId cr dryRun bs).conn.committed = init ∧
    (apply_changes env init runId cr dryRun bs).conn.working = init ∧
    (apply_changes env init runId cr dryRun bs).run.status = RunStatus.FAILED ∧
    (apply_changes env init runId cr dryRun bs).run.error_message = Option.some msg ∧
    (apply_changes env init runId cr dryRun bs).run.error_message ≠ Option.some "" ∧
    (apply_changes env init runId cr dryRun bs).result.success = false ∧
    (apply_changes env init runId cr dryRun bs).result.error_messages
      = ["Update processing failed: " ++ msg] ∧
    DbEvent.commit ∉ (apply_changes env init runId cr dryRun bs).events := by
  unfold applyFailMsg at hfail
  cases happ : applyTables env dryRun bs cr.changes_by_table TABLE_ORDER
      (initProcState init) {} with
  | ok r =>
    rw [happ] at hfail
    exact absurd hfail (by simp)
  | error e =>
    obtain ⟨msg', st, acc⟩ := e
    rw [happ] at hfail
    simp only at hfail
    injection hfail with hfail
    subst hfail
    have hev := applyTables_evolves env dryRun TABLE_ORDER bs cr.changes_by_table
      TABLE_ORDER (initProcState init) {} (fun t ht => ht)
    rw [happ] at hev
    obtain ⟨hc, _, es, he, hs⟩ := hev
    simp only [loopState, initProcState] at hc he
    unfold apply_changes
    rw [happ]
    refine ⟨hc, hc, rfl, rfl, by simp [complete_update_run, hmsg], rfl, rfl, ?_⟩
    intro hmem
    simp only [List.mem_append] at hmem
    rcases hmem with hmem | hmem
    · rw [he] at hmem
      simp only [List.nil_append] at hmem
      rcases hs _ hmem with ⟨s, hes, _⟩
      exact absurd hes (by simp)
    · simp at hmem

/-- A fault-free environment: every statement succeeds, every cursor is
acquired. -/
def envAllOk : Env :=
  { stmtError := fun _ _ => Option.none, cursorFail := fun _ => Option.none }

/-- An environment in which the first executed statement raises a
constraint violation (caught at row level); cursors are fine. -/
def envStmtFail : Env :=
  { stmtError := fun n _ => if n = 0 then Option.some "duplicate key" else Option.none,
    cursorFail := fun _ => Option.none }

/-- An environment in which acquiring the first batch cursor raises —
the failure mode that escapes the apply loop. -/
def envCursorFail : Env :=
  { stmtError := fun _ _ => Option.none,
    cursorFail := fun n => if n = 0 then Option.some "connection lost" else Option.none }

/-- The row inserted in the concrete scenarios. -/
def sampleRowB : Row := [("id", PyVal.str "B"), ("name", PyVal.str "New Museum")]

/-- A change-set containing a single INSERT into `logies`. -/
def crOneInsert : ChangeDetectionResult :=
  { master_db := "m", comparison_db := "c", total_changes := 1,
    changes_by_table := [("logies",
      [{ entity_id := PyVal.str "B", entity_type := "logies",
         operation := Op.INSERT, new_values := Option.some sampleRowB }])],
    summary := [("logies", { INSERT := 1 })] }

/-- The pre-apply production store of the concrete scenarios. -/
def initialStore : DB := [("logies", [[("id", PyVal.str "A")]])]

/-- Witness for C1: the first batch cursor fails, the run is FAILED and
the store is untouched. -/
theorem apply_changes_fatal_error_rolls_back_case :
    applyFailMsg envCursorFail false 1 crOneInsert.changes_by_table initialStore
      = Option.some "connection lost" ∧
    "connection lost" ≠ "" ∧
    ((apply_changes envCursorFail initialStore "run-1" crOneInsert false 1).conn.committed
        = initialStore ∧
      (apply_changes envCursorFail initialStore "run-1" crOneInsert false 1).conn.working
        = initialStore ∧
      (apply_changes envCursorFail initialStore "run-1" crOneInsert false 1).run.status
        = RunStatus.FAILED ∧
      (apply_changes envCursorFail initialStore "run-1" crOneInsert false 1).run.error_message
        = Option.some "connection lost" ∧
      (apply_changes envCursorFail initialStore "run-1" crOneInsert false 1).run.error_message
        ≠ Option.some "" ∧
      (apply_changes envCursorFail initialStore "run-1" crOneInsert false 1).result.success
        = false ∧
      (apply_changes envCursorFail initialStore "run-1" crOneInsert false 1).result.error_messages
        = ["Update processing failed: " ++ "connection lost"] ∧
      DbEvent.commit
        ∉ (apply_changes envCursorFail initialStore "run-1" crOneInsert false 1).events) :=
  ⟨by decide, by decide,
    apply_changes_fatal_error_rolls_back envCursorFail initialStore "run-1" crOneInsert
      false 1 "connection lost" (by decide) (by decide)⟩

/-! ## Dry runs never touch the connection -/

theorem processRow_dry (env : Env) (tableName : String) (opType : Op)
    (ch : EntityChange) (st : ProcState) :
    (processRow env true tableName opType ch st).2 = st := by
  unfold processRow
  split <;> rfl

theorem processRows_dry (env : Env) (tableName : String) (opType : Op)
    (batch : List EntityChange) (st : ProcState) :
    (processRows env true tableName opType batch st).2 = st := by
  unfold processRows
  suffices h : ∀ (n : Nat) (st0 : ProcState), (batch.foldl (fun acc ch =>
      let r := processRow env true tableName opType ch acc.2
      (acc.1 + r.1, r.2)) (n, st0)).2 = st0 by
    exact h 0 st
  induction batch with
  | nil => intro n st0; rfl
  | cons ch batch ih =>
    intro n st0
    rw [List.foldl_cons]
    dsimp only
    rw [processRow_dry]
    exact ih _ st0

theorem applyOperationBatch_dry (env : Env) (tableName : String) (opType : Op)
    (batch : List EntityChange) (st : ProcState)
    (h : env.cursorFail st.batchIdx = Option.none) :
    ∃ k st', applyOperationBatch env true tableName opType batch st
        = Except.ok (k, st') ∧
      st'.conn = st.conn ∧ st'.events = st.events ∧ st'.stmtIdx = st.stmtIdx := by
  unfold applyOperationBatch
  split
  · exact ⟨0, st, rfl, rfl, rfl, rfl⟩
  · rw [h]
    rcases hpr : processRows env true tableName opType batch
        { st with batchIdx := st.batchIdx + 1 } with ⟨k, st'⟩
    have h2 := processRows_dry env tableName opType batch
      { st with batchIdx := st.batchIdx + 1 }
    rw [hpr] at h2
    simp only at h2
    exact ⟨k, st', by dsimp only, by rw [h2], by rw [h2], by rw [h2]⟩

theorem runBatches_dry (env : Env) (tableName : String) (opType : Op)
    (batches : List (List EntityChange)) (n : Nat) (st : ProcState)
    (henv : ∀ k, env.cursorFail k = Option.none) :
    ∃ n' st', runBatches env true tableName opType batches n st
        = Except.ok (n', st') ∧
      st'.conn = st.conn ∧ st'.events = st.events ∧ st'.stmtIdx = st.stmtIdx := by
  induction batches generalizing n st with
  | nil => exact ⟨n, st, rfl, rfl, rfl, rfl⟩
  | cons batch rest ih =>
    obtain ⟨k, st1, hb, hc1, he1, hs1⟩ :=
      applyOperationBatch_dry env tableName opType batch st (henv st.batchIdx)
    obtain ⟨n', st', hr, hc2, he2, hs2⟩ := ih (n + k) st1
    refine ⟨n', st', ?_, hc2.trans hc1, he2.trans he1, hs2.trans hs1⟩
    unfold runBatches
    rw [hb]
    exact hr

theorem applyOpGroup_dry (env : Env) (bs : Nat) (tableName : String) (opType : Op)
    (group : List EntityChange) (st : ProcState)
    (henv : ∀ k, env.cursorFail k = Option.none) :
    ∃ n st', applyOpGroup env true bs tableName opType group st
        = Except.ok (n, st') ∧
      st'.conn = st.conn ∧ st'.events = st.events ∧ st'.stmtIdx = st.stmtIdx := by
  unfold applyOpGroup
  split
  · exact ⟨0, st, rfl, rfl, rfl, rfl⟩
  · exact runBatches_dry env tableName opType (chunks bs group) 0 st henv

theorem applyTableChanges_dry (env : Env) (bs : Nat) (tableName : String)
    (changes : List EntityChange) (st : ProcState)
    (henv : ∀ k, env.cursorFail k = Option.none) :
    ∃ tsum st', applyTableChanges env true bs tableName changes st
        = Except.ok (tsum, st') ∧
      st'.conn = st.conn ∧ st'.events = st.events ∧ st'.stmtIdx = st.stmtIdx := by
  obtain ⟨nd, st1, h1, hc1, he1, hs1⟩ := applyOpGroup_dry env bs tableName Op.DELETE
    (changes.filter (fun c => c.operation == Op.DELETE)) st henv
  obtain ⟨nu, st2, h2, hc2, he2, hs2⟩ := applyOpGroup_dry env bs tableName Op.UPDATE
    (changes.filter (fun c => c.operation == Op.UPDATE)) st1 henv
  obtain ⟨ni, st3, h3, hc3, he3, hs3⟩ := applyOpGroup_dry env bs tableName Op.INSERT
    (changes.filter (fun c => c.operation == Op.INSERT)) st2 henv
  refine ⟨{ INSERT := ni, UPDATE := nu, DELETE := nd }, st3, ?_,
    (hc3.trans hc2).trans hc1, (he3.trans he2).trans he1, (hs3.trans hs2).trans hs1⟩
  unfold applyTableChanges
  dsimp only
  rw [h1]
  dsimp only
  rw [h2]
  dsimp only
  rw [h3]

theorem applyTables_dry (env : Env) (bs : Nat)
    (cbt : List (String × List EntityChange)) (tables : List String)
    (st : ProcState) (acc : ApplyAcc)
    (henv : ∀ k, env.cursorFail k = Option.none) :
    ∃ st' acc', applyTables env true bs cbt tables st acc
        = Except.ok (st', acc') ∧
      st'.conn = st.conn ∧ st'.events = st.events := by
  induction tables generalizing st acc with
  | nil => exact ⟨st, acc, rfl, rfl, rfl⟩
  | cons t rest ih =>
    unfold applyTables
    cases hl : List.lookup t cbt with
    | none => exact ih st acc
    | some tableChanges =>
      dsimp only
      by_cases hemp : tableChanges.isEmpty
      · rw [if_pos hemp]
        exact ih st acc
      · rw [if_neg hemp]
        obtain ⟨tsum, st1, h1, hc1, he1, _⟩ :=
          applyTableChanges_dry env bs t tableChanges st henv
        obtain ⟨st', acc', h2, hc2, he2⟩ := ih st1
          { summary := acc.summary ++ [(t, tsum)],
            records_processed := acc.records_processed + tableChanges.length,
            records_applied :=
              acc.records_applied + (tsum.INSERT + tsum.UPDATE + tsum.DELETE) }
        refine ⟨st', acc', ?_, hc2.trans hc1, he2.trans he1⟩
        rw [h1]
        exact h2

/-- C2 (amended): a dry run issues no INSERT/UPDATE/DELETE statement at
all — each `cursor.execute` is skipped, so the only event on the
production connection is the final ROLLBACK — the store (committed and
working state alike) is exactly its pre-call state, the run is completed
with status DRY_RUN, and the call reports success.  (Contrary to the
original claim, intended statements are *not* executed, so constraint
violations and affected-row counts are not discovered.) -/
theorem dry_run_executes_nothing (env : Env) (init : DB) (runId : String)
    (cr : ChangeDetectionResult) (bs : Nat)
    (henv : ∀ k, env.cursorFail k = Option.none) :
    (apply_changes env init runId cr true bs).events = [DbEvent.rollback] ∧
    (apply_changes env init runId cr true bs).conn.committed = init ∧
    (apply_changes env init runId cr true bs).conn.working = init ∧
    (apply_changes env init runId cr true bs).run.status = RunStatus.DRY_RUN ∧
    (apply_changes env init runId cr true bs).result.success = true := by
  obtain ⟨st', acc', happ, hconn, hev⟩ := applyTables_dry env bs cr.changes_by_table
    TABLE_ORDER (initProcState init) {} henv
  unfold apply_changes
  rw [happ]
  have hconnC : st'.conn.committed = init := by rw [hconn]; rfl
  refine ⟨?_, ?_, ?_, rfl, rfl⟩
  · show st'.events ++ [DbEvent.rollback] = [DbEvent.rollback]
    rw [hev]
    rfl
  · exact hconnC
  · show st'.conn.committed = init
    exact hconnC

/-- C2 counterexample: take one INSERT whose execution would raise a
constraint violation (`envStmtFail` fails the first executed statement).
A real run executes the statement (one exec event), discovers the
violation and applies 0 records; the dry run issues *no* statement at all
(its only connection event is the final ROLLBACK) and happily reports the
record as applied — so a dry run does not execute every intended
statement as a real run would, and constraint violations are not
discovered. -/
theorem dry_run_skips_execution_cex :
    (apply_changes envStmtFail initialStore "run-2" crOneInsert true 10).events
      = [DbEvent.rollback] ∧
    (apply_changes envStmtFail initialStore "run-2" crOneInsert true 10).result.records_applied
      = 1 ∧
    (apply_changes envStmtFail initialStore "run-2" crOneInsert false 10).events
      = [DbEvent.exec (Stmt.insertStmt "logies" sampleRowB), DbEvent.commit] ∧
    (apply_changes envStmtFail initialStore "run-2" crOneInsert false 10).result.records_applied
      = 0 := by
  refine ⟨?_, ?_, ?_, ?_⟩ <;> decide

/-- Witness for C2's amended theorem: a concrete dry run over one INSERT
with a fault-free cursor environment. -/
theorem dry_run_executes_nothing_case :
    (∀ k, envStmtFail.cursorFail k = Option.none) ∧
    ((apply_changes envStmtFail initialStore "run-3" crOneInsert true 7).events
        = [DbEvent.rollback] ∧
      (apply_changes envStmtFail initialStore "run-3" crOneInsert true 7).conn.committed
        = initialStore ∧
      (apply_changes envStmtFail initialStore "run-3" crOneInsert true 7).conn.working
        = initialStore ∧
      (apply_changes envStmtFail initialStore "run-3" crOneInsert true 7).run.status
        = RunStatus.DRY_RUN ∧
      (apply_changes envStmtFail initialStore "run-3" crOneInsert true 7).result.success
        = true) :=
  ⟨fun _ => rfl,
    dry_run_executes_nothing envStmtFail initialStore "run-3" crOneInsert 7 (fun _ => rfl)⟩

/-- C6 (the code against the claim): one INSERT is attempted, its
execution raises, the failure is caught and skipped — visible as
`records_processed = 1` with `records_applied = 0` — yet the returned
`UpdateResult` reports `records_failed = 0`, an empty `error_messages`
list and overall success: the skipped row-level failure is only logged,
never accumulated into the result object. -/
theorem row_failures_not_recorded_in_result :
    (apply_changes envStmtFail initialStore "run-4" crOneInsert false 10).result.records_processed
      = 1 ∧
    (apply_changes envStmtFail initialStore "run-4" crOneInsert false 10).result.records_applied
      = 0 ∧
    (apply_changes envStmtFail initialStore "run-4" crOneInsert false 10).result.records_failed
      = 0 ∧
    (apply_changes envStmtFail initialStore "run-4" crOneInsert false 10).result.error_messages
      = [] ∧
    (apply_changes envStmtFail initialStore "run-4" crOneInsert false 10).result.success
      = true := by
  refine ⟨?_, ?_, ?_, ?_, ?_⟩ <;> decide

/-- C7 (the code against the claim): a run that successfully applies one
INSERT (per-table summary `{INSERT: 1}` for `logies`, one record applied,
run COMPLETED) completes the `UpdateRun` with `records_added = 0` —
lines 163–165 read `update_result.summary.get('INSERT', 0)`, but
`summary` is keyed by table name, so the lookup always falls back to the
default 0 and the persisted counts never equal the number of applied
changes. -/
theorem completed_run_counts_always_zero :
    (apply_changes envAllOk initialStore "run-5" crOneInsert false 10).run.status
      = RunStatus.COMPLETED ∧
    (apply_changes envAllOk initialStore "run-5" crOneInsert false 10).result.summary
      = [("logies", { INSERT := 1, UPDATE := 0, DELETE := 0 })] ∧
    (apply_changes envAllOk initialStore "run-5" crOneInsert false 10).result.records_applied
      = 1 ∧
    (apply_changes envAllOk initialStore "run-5" crOneInsert false 10).run.records_added
      = 0 ∧
    (apply_changes envAllOk initialStore "run-5" crOneInsert false 10).run.records_updated
      = 0 ∧
    (apply_changes envAllOk initialStore "run-5" crOneInsert false 10).run.records_deleted
      = 0 := by
  refine ⟨?_, ?_, ?_, ?_, ?_, ?_⟩ <;> decide

/-! ## The exact statement trace of a fault-free real run -/

/-- The statement one row produces, `none` when the row is skipped
(validation error or empty SET clause). -/
def rowStmt (tableName : String) (opType : Op) (ch : EntityChange) : Option Stmt :=
  match buildStmt tableName opType ch with
  | BuildResult.stmt s => Option.some s
  | _ => Option.none

/-- The statements `_apply_table_changes` issues for one table: all
DELETE statements first, then all UPDATE statements, then all INSERT
statements, each group in change-list order. -/
def plannedTableStmts (tableName : String) (changes : List EntityChange) : List Stmt :=
  (changes.filter (fun c => c.operation == Op.DELETE)).filterMap (rowStmt tableName Op.DELETE)
    ++ (changes.filter (fun c => c.operation == Op.UPDATE)).filterMap (rowStmt tableName Op.UPDATE)
    ++ (changes.filter (fun c => c.operation == Op.INSERT)).filterMap (rowStmt tableName Op.INSERT)

/-- The statements `apply_changes` issues while walking the given tables
in order. -/
def plannedStmtsFor (cbt : List (String × List EntityChange)) :
    List String → List Stmt
  | [] => []
  | t :: rest =>
    (match List.lookup t cbt with
     | Option.some chs => plannedTableStmts t chs
     | Option.none => []) ++ plannedStmtsFor cbt rest

/-- The full statement plan of a change-set: the dependency-ordered
tables, each with DELETE, then UPDATE, then INSERT statements. -/
def plannedStmts (cbt : List (String × List EntityChange)) : List Stmt :=
  plannedStmtsFor cbt TABLE_ORDER

theorem processRow_events (env : Env) (tableName : String) (opType : Op)
    (ch : EntityChange) (st : ProcState) :
    (processRow env false tableName opType ch st).2.events
      = st.events ++ ((rowStmt tableName opType ch).toList.map DbEvent.exec) := by
  unfold processRow rowStmt
  cases buildStmt tableName opType ch with
  | invalid msg => simp
  | skipRow => simp
  | stmt s =>
    dsimp only
    cases env.stmtError st.stmtIdx s <;> simp

theorem processRows_events (env : Env) (tableName : String) (opType : Op)
    (batch : List EntityChange) (st : ProcState) :
    (processRows env false tableName opType batch st).2.events
      = st.events ++ (batch.filterMap (rowStmt tableName opType)).map DbEvent.exec := by
  unfold processRows
  suffices h : ∀ (n : Nat) (st0 : ProcState), (batch.foldl (fun acc ch =>
      let r := processRow env false tableName opType ch acc.2
      (acc.1 + r.1, r.2)) (n, st0)).2.events
      = st0.events ++ (batch.filterMap (rowStmt tableName opType)).map DbEvent.exec by
    exact h 0 st
  induction batch with
  | nil => intro n st0; simp
  | cons ch batch ih =>
    intro n st0
    rw [List.foldl_cons]
    dsimp only
    rw [ih, processRow_events, List.filterMap_cons]
    cases rowStmt tableName opType ch <;> simp

theorem applyOperationBatch_events (env : Env) (tableName : String) (opType : Op)
    (batch : List EntityChange) (st : ProcState)
    (h : env.cursorFail st.batchIdx = Option.none) :
    ∃ k st', applyOperationBatch env false tableName opType batch st
        = Except.ok (k, st') ∧
      st'.events = st.events
        ++ (batch.filterMap (rowStmt tableName opType)).map DbEvent.exec := by
  unfold applyOperationBatch
  split
  · next hemp =>
    refine ⟨0, st, rfl, ?_⟩
    rw [List.isEmpty_iff] at hemp
    subst hemp
    simp
  · rw [h]
    rcases hpr : processRows env false tableName opType batch
        { st with batchIdx := st.batchIdx + 1 } with ⟨k, st'⟩
    have h2 := processRows_events env tableName opType batch
      { st with batchIdx := st.batchIdx + 1 }
    rw [hpr] at h2
    simp only at h2
    exact ⟨k, st', by dsimp only, by rw [h2]⟩

theorem runBatches_events (env : Env) (tableName : String) (opType : Op)
    (batches : List (List EntityChange)) (n : Nat) (st : ProcState)
    (henv : ∀ k, env.cursorFail k = Option.none) :
    ∃ n' st', runBatches env false tableName opType batches n st
        = Except.ok (n', st') ∧
      st'.events = st.events
        ++ (batches.flatten.filterMap (rowStmt tableName opType)).map DbEvent.exec := by
  induction batches generalizing n st with
  | nil => exact ⟨n, st, rfl, by simp⟩
  | cons batch rest ih =>
    obtain ⟨k, st1, hb, he1⟩ :=
      applyOperationBatch_events env tableName opType batch st (henv st.batchIdx)
    obtain ⟨n', st', hr, he2⟩ := ih (n + k) st1
    refine ⟨n', st', ?_, ?_⟩
    · unfold runBatches
      rw [hb]
      exact hr
    · rw [he2, he1, List.flatten_cons, List.filterMap_append, List.map_append,
        List.append_assoc]

theorem chunksGo_flatten (fuel bs : Nat) (l : List EntityChange)
    (hbs : 0 < bs) (hfuel : l.length ≤ fuel) :
    (chunksGo fuel bs l).flatten = l := by
  induction fuel generalizing l with
  | zero =>
    cases l with
    | nil => rfl
    | cons a l' => simp at hfuel
  | succ f ih =>
    cases l with
    | nil => rfl
    | cons a l' =>
      show (List.take bs (a :: l') :: chunksGo f bs (List.drop bs (a :: l'))).flatten
        = a :: l'
      rw [List.flatten_cons, ih (List.drop bs (a :: l'))
        (by rw [List.length_drop]; simp at hfuel ⊢; omega),
        List.take_append_drop]

theorem chunks_flatten (bs : Nat) (l : List EntityChange) (hbs : 0 < bs) :
    (chunks bs l).flatten = l :=
  chunksGo_flatten l.length bs l hbs (Nat.le_refl _)

theorem applyOpGroup_events (env : Env) (bs : Nat) (tableName : String)
    (opType : Op) (group : List EntityChange) (st : ProcState)
    (henv : ∀ k, env.cursorFail k = Option.none) (hbs : 0 < bs) :
    ∃ n st', applyOpGroup env false bs tableName opType group st
        = Except.ok (n, st') ∧
      st'.events = st.events
        ++ (group.filterMap (rowStmt tableName opType)).map DbEvent.exec := by
  unfold applyOpGroup
  split
  · next hemp =>
    refine ⟨0, st, rfl, ?_⟩
    rw [List.isEmpty_iff] at hemp
    subst hemp
    simp
  · obtain ⟨n', st', hr, he⟩ :=
      runBatches_events env tableName opType (chunks bs group) 0 st henv
    rw [chunks_flatten bs group hbs] at he
    exact ⟨n', st', hr, he⟩

theorem applyTableChanges_events (env : Env) (bs : Nat) (tableName : String)
    (changes : List EntityChange) (st : ProcState)
    (henv : ∀ k, env.cursorFail k = Option.none) (hbs : 0 < bs) :
    ∃ tsum st', applyTableChanges env false bs tableName changes st
        = Except.ok (tsum, st') ∧
      st'.events = st.events ++ (plannedTableStmts tableName changes).map DbEvent.exec := by
  obtain ⟨nd, st1, h1, he1⟩ := applyOpGroup_events env bs tableName Op.DELETE
    (changes.filter (fun c => c.operation == Op.DELETE)) st henv hbs
  obtain ⟨nu, st2, h2, he2⟩ := applyOpGroup_events env bs tableName Op.UPDATE
    (changes.filter (fun c => c.operation == Op.UPDATE)) st1 henv hbs
  obtain ⟨ni, st3, h3, he3⟩ := applyOpGroup_events env bs tableName Op.INSERT
    (changes.filter (fun c => c.operation == Op.INSERT)) st2 henv hbs
  refine ⟨{ INSERT := ni, UPDATE := nu, DELETE := nd }, st3, ?_, ?_⟩
  · unfold applyTableChanges
    dsimp only
    rw [h1]
    dsimp only
    rw [h2]
    dsimp only
    rw [h3]
  · rw [he3, he2, he1, plannedTableStmts]
    simp [List.append_assoc]

theorem applyTables_events (env : Env) (bs : Nat)
    (cbt : List (String × List EntityChange)) (tables : List String)
    (st : ProcState) (acc : ApplyAcc)
    (henv : ∀ k, env.cursorFail k = Option.none) (hbs : 0 < bs) :
    ∃ st' acc', applyTables env false bs cbt tables st acc
        = Except.ok (st', acc') ∧
      st'.events = st.events ++ (plannedStmtsFor cbt tables).map DbEvent.exec := by
  induction tables generalizing st acc with
  | nil => exact ⟨st, acc, rfl, by simp [plannedStmtsFor]⟩
  | cons t rest ih =>
    unfold applyTables
    cases hl : List.lookup t cbt with
    | none =>
      obtain ⟨st', acc', hr, he⟩ := ih st acc
      refine ⟨st', acc', hr, ?_⟩
      rw [he]
      simp [plannedStmtsFor, hl]
    | some tableChanges =>
      dsimp only
      by_cases hemp : tableChanges.isEmpty
      · rw [if_pos hemp]
        obtain ⟨st', acc', hr, he⟩ := ih st acc
        refine ⟨st', acc', hr, ?_⟩
        rw [he]
        rw [List.isEmpty_iff] at hemp
        simp [plannedStmtsFor, hl, hemp, plannedTableStmts]
      · rw [if_neg hemp]
        obtain ⟨tsum, st1, h1, he1⟩ :=
          applyTableChanges_events env bs t tableChanges st henv hbs
        obtain ⟨st', acc', hr, he⟩ := ih st1
          { summary := acc.summary ++ [(t, tsum)],
            records_processed := acc.records_processed + tableChanges.length,
            records_applied :=
              acc.records_applied + (tsum.INSERT + tsum.UPDATE + tsum.DELETE) }
        refine ⟨st', acc', ?_, ?_⟩
        · rw [h1]
          exact hr
        · rw [he, he1]
          simp [plannedStmtsFor, hl, List.append_assoc]

/-- C5: a fault-free real run issues exactly the planned statement
sequence and then COMMIT: the tables are walked in the fixed dependency
order `identifiers, geometries, contact_points, addresses, logies`
(every depended-upon table before the tables referencing it), and within
each table all DELETE statements are issued first, then all UPDATEs,
then all INSERTs — a dependent table's statements never precede those of
the tables it depends on. -/
theorem apply_changes_statement_order (env : Env) (init : DB) (runId : String)
    (cr : ChangeDetectionResult) (bs : Nat)
    (hbs : 0 < bs) (henv : ∀ k, env.cursorFail k = Option.none) :
    (apply_changes env init runId cr false bs).events
      = (plannedStmts cr.changes_by_table).map DbEvent.exec ++ [DbEvent.commit] := by
  obtain ⟨st', acc', happ, hev⟩ := applyTables_events env bs cr.changes_by_table
    TABLE_ORDER (initProcState init) {} henv hbs
  unfold apply_changes
  rw [happ]
  show st'.events ++ [DbEvent.commit] = _
  rw [hev]
  rfl

/-- Witness for C5: the concrete one-INSERT change-set issues exactly its
insert statement and then COMMIT. -/
theorem apply_changes_statement_order_case :
    0 < 2 ∧ (∀ k, envAllOk.cursorFail k = Option.none) ∧
    (apply_changes envAllOk initialStore "run-6" crOneInsert false 2).events
      = (plannedStmts crOneInsert.changes_by_table).map DbEvent.exec ++ [DbEvent.commit] :=
  ⟨by decide, fun _ => rfl,
    apply_changes_statement_order envAllOk initialStore "run-6" crOneInsert 2
      (by decide) (fun _ => rfl)⟩

/-! ## Changes under non-core table names are ignored entirely -/

/-- The change-set restricted to the five tables of the fixed processing
order. -/
def restrictCore (cr : ChangeDetectionResult) : ChangeDetectionResult :=
  { cr with changes_by_table :=
      cr.changes_by_table.filter (fun p => decide (p.1 ∈ TABLE_ORDER)) }

/-- An event a run is allowed to produce: statement executions touch only
the five core tables; COMMIT/ROLLBACK carry no table. -/
def eventCoreOnly (e : DbEvent) : Bool :=
  match e with
  | DbEvent.exec s => decide (Stmt.tableOf s ∈ TABLE_ORDER)
  | DbEvent.commit => true
  | DbEvent.rollback => true

theorem lookup_filter_core (t : String) (l : List (String × List EntityChange))
    (ht : t ∈ TABLE_ORDER) :
    List.lookup t (l.filter (fun p => decide (p.1 ∈ TABLE_ORDER)))
      = List.lookup t l := by
  induction l with
  | nil => rfl
  | cons p l ih =>
    by_cases hp : p.1 ∈ TABLE_ORDER
    · rw [List.filter_cons_of_pos (by simpa using hp)]
      simp only [List.lookup]
      split
      · rfl
      · exact ih
    · rw [List.filter_cons_of_neg (by simpa using hp)]
      have hne : (t == p.1) = false := by
        simp only [beq_eq_false_iff_ne, ne_eq]
        intro h
        exact hp (h ▸ ht)
      rw [ih]
      simp [List.lookup, hne]

theorem applyTables_congr (env : Env) (dryRun : Bool) (bs : Nat)
    (A B : List (String × List EntityChange)) (tables : List String)
    (st : ProcState) (acc : ApplyAcc)
    (hl : ∀ t ∈ tables, List.lookup t A = List.lookup t B) :
    applyTables env dryRun bs A tables st acc
      = applyTables env dryRun bs B tables st acc := by
  induction tables generalizing st acc with
  | nil => rfl
  | cons t rest ih =>
    have ht := hl t (by simp)
    have hrest : ∀ u ∈ rest, List.lookup u A = List.lookup u B :=
      fun u hu => hl u (by simp [hu])
    unfold applyTables
    rw [ht]
    cases List.lookup t B with
    | none => exact ih st acc hrest
    | some chs =>
      dsimp only
      by_cases hemp : chs.isEmpty
      · simp only [if_pos hemp]
        exact ih st acc hrest
      · simp only [if_neg hemp]
        cases applyTableChanges env dryRun bs t chs st with
        | error e => rfl
        | ok r =>
          obtain ⟨tsum, st'⟩ := r
          exact ih st' _ hrest

/-- C10: changes listed under any table name outside
`{identifiers, geometries, contact_points, addresses, logies}` are
ignored entirely — the run is identical to the run over the restricted
change-set (same result, run record, store and trace, so they contribute
nothing to `records_processed`, `records_applied` or the summary), every
issued statement targets a core table, and the contents of all non-core
tables (committed and working alike) are left unchanged. -/
theorem apply_changes_ignores_noncore_tables (env : Env) (init : DB)
    (runId : String) (cr : ChangeDetectionResult) (dryRun : Bool) (bs : Nat) :
    apply_changes env init runId cr dryRun bs
      = apply_changes env init runId (restrictCore cr) dryRun bs ∧
    (apply_changes env init runId cr dryRun bs).events.all eventCoreOnly = true ∧
    dbEraseTables (apply_changes env init runId cr dryRun bs).conn.working TABLE_ORDER
      = dbEraseTables init TABLE_ORDER ∧
    dbEraseTables (apply_changes env init runId cr dryRun bs).conn.committed TABLE_ORDER
      = dbEraseTables init TABLE_ORDER := by
  have hcongr : applyTables env dryRun bs cr.changes_by_table TABLE_ORDER
      (initProcState init) {}
      = applyTables env dryRun bs (restrictCore cr).changes_by_table TABLE_ORDER
        (initProcState init) {} := by
    apply applyTables_congr
    intro t htm
    exact (lookup_filter_core t cr.changes_by_table htm).symm
  have hev := applyTables_evolves env dryRun TABLE_ORDER bs cr.changes_by_table
    TABLE_ORDER (initProcState init) {} (fun t ht => ht)
  refine ⟨?_, ?_⟩
  · unfold apply_changes
    rw [hcongr]
  · cases happ : applyTables env dryRun bs cr.changes_by_table TABLE_ORDER
        (initProcState init) {} with
    | ok r =>
      obtain ⟨st, acc⟩ := r
      rw [happ] at hev
      obtain ⟨hc, hw, es, he, hs⟩ := hev
      simp only [loopState, initProcState] at hc hw he
      simp only [List.nil_append] at he
      have hall : ∀ e ∈ st.events, eventCoreOnly e = true := by
        intro e hemem
        rw [he] at hemem
        rcases hs e hemem with ⟨s, hes, hts⟩
        subst hes
        simp [eventCoreOnly, hts]
      unfold apply_changes
      rw [happ]
      refine ⟨?_, ?_, ?_⟩
      · show (st.events ++ [if dryRun then DbEvent.rollback else DbEvent.commit]).all
          eventCoreOnly = true
        rw [List.all_append]
        have h1 : st.events.all eventCoreOnly = true := List.all_eq_true.mpr hall
        have h2 : ([if dryRun then DbEvent.rollback else DbEvent.commit].all
            eventCoreOnly) = true := by
          cases dryRun <;> rfl
        rw [h1, h2]
        rfl
      · show dbEraseTables (if dryRun then { st.conn with working := st.conn.committed }
            else { st.conn with committed := st.conn.working }).working TABLE_ORDER
          = dbEraseTables init TABLE_ORDER
        cases dryRun
        · simpa using hw
        · simp only [if_true]
          show dbEraseTables st.conn.committed TABLE_ORDER = dbEraseTables init TABLE_ORDER
          rw [hc]
      · show dbEraseTables (if dryRun then { st.conn with working := st.conn.committed }
            else { st.conn with committed := st.conn.working }).committed TABLE_ORDER
          = dbEraseTables init TABLE_ORDER
        cases dryRun
        · simp only [Bool.false_eq_true, if_false]
          show dbEraseTables st.conn.working TABLE_ORDER = dbEraseTables init TABLE_ORDER
          exact hw
        · simp only [if_true]
          show dbEraseTables st.conn.committed TABLE_ORDER = dbEraseTables init TABLE_ORDER
          rw [hc]
    | error e =>
      obtain ⟨msg, st, acc⟩ := e
      rw [happ] at hev
      obtain ⟨hc, hw, es, he, hs⟩ := hev
      simp only [loopState, initProcState] at hc hw he
      simp only [List.nil_append] at he
      have hall : ∀ e ∈ st.events, eventCoreOnly e = true := by
        intro e hemem
        rw [he] at hemem
        rcases hs e hemem with ⟨s, hes, hts⟩
        subst hes
        simp [eventCoreOnly, hts]
      unfold apply_changes
      rw [happ]
      refine ⟨?_, ?_, ?_⟩
      · show (st.events ++ [DbEvent.rollback]).all eventCoreOnly = true
        rw [List.all_append]
        rw [List.all_eq_true.mpr hall]
        rfl
      · show dbEraseTables st.conn.committed TABLE_ORDER = dbEraseTables init TABLE_ORDER
        rw [hc]
      · show dbEraseTables st.conn.committed TABLE_ORDER = dbEraseTables init TABLE_ORDER
        rw [hc]

end Tourism
